import Mathlib

/-!
Verification of the chess rule engine (chess_piece.py, chess_board.py,
game_logic.py) against its specification.  The Python code is shallowly
embedded: the 8×8 grid becomes a function `Fin 8 → Fin 8 → Option ChessPiece`,
pieces become a structure carrying kind, colour, square and has-moved flag,
and the in-place simulate-then-restore mutation of `Board.is_valid_move` is
modelled by explicit state passing (`board_is_valid_move_run`).
-/

namespace Chess

inductive PColor
  | white
  | black
deriving DecidableEq, Repr

def PColor.other : PColor → PColor
  | .white => .black
  | .black => .white

inductive PKind
  | pawn
  | rook
  | knight
  | bishop
  | queen
  | king
deriving DecidableEq, Repr

/-- A chess piece as in chess_piece.py: its kind (Python class), colour,
current square `position` (row, col) and the has-moved flag.  In Python only
Rook and King carry `has_moved`; here every piece carries the field and the
code that probes `hasattr`/`getattr` is translated with explicit kind tests. -/
structure ChessPiece where
  kind : PKind
  color : PColor
  pos : Int × Int
  hasMoved : Bool
deriving DecidableEq, Repr

/-- The 8×8 grid `Board.board`: each cell holds at most one piece. -/
abbrev ChessBoard := (Fin 8) → (Fin 8) → Option ChessPiece

/-- Python list-index semantics for a list of length 8: 0..7 map directly,
-8..-1 wrap around, and any other index raises IndexError (modelled `none`). -/
def wrapIdx (i : Int) : Option (Fin 8) :=
  if h : 0 ≤ i ∧ i < 8 then some ⟨i.toNat, by omega⟩
  else if h2 : -8 ≤ i ∧ i < 0 then some ⟨(i + 8).toNat, by omega⟩
  else none

/-- The square is inside the 8×8 board. -/
def inB (p : Int × Int) : Prop :=
  0 ≤ p.1 ∧ p.1 < 8 ∧ 0 ≤ p.2 ∧ p.2 < 8

instance (p : Int × Int) : Decidable (inB p) := by
  unfold inB; infer_instance

/-- Piece._get_square on a Board object: `board.board[row][col]` with
IndexError caught and turned into None.  The raw (uncaught) grid reads in
chess_board.py and game_logic.py behave identically at every index at which
they do not raise; the raising case is modelled separately for claim C5. -/
def get_square (b : ChessBoard) (p : Int × Int) : Option ChessPiece :=
  match wrapIdx p.1, wrapIdx p.2 with
  | some r, some c => b r c
  | _, _ => none

/-- A raw grid write `self.board[r][c] = v` (negative indices wrap, exactly
like the reads; writes at raising indices never happen in the proved claims,
and are modelled as no-ops). -/
def setCell (b : ChessBoard) (p : Int × Int) (v : Option ChessPiece) : ChessBoard :=
  match wrapIdx p.1, wrapIdx p.2 with
  | some r, some c => fun i j => if i = r ∧ j = c then v else b i j
  | _, _ => b

/-- Sign of a coordinate delta, as computed by both path-walk loops
(`0 if r2 == r else (1 if r2 > r else -1)`). -/
def sgn (d : Int) : Int := if d = 0 then 0 else if 0 < d then 1 else -1

/-- The while-loop shared by Piece._is_path_clear, Board._path_clear and
Game.is_path_blocked: starting from `cur`, step by `(stepr, stepc)` until the
target square is reached, reporting whether an occupied square was crossed.
Fuel 16 strictly exceeds the at most 8 iterations any aligned walk performs,
so the fuel never runs out on the walks the engine actually makes. -/
def occupiedOnWalk (b : ChessBoard) (stepr stepc : Int) :
    Nat → Int × Int → Int × Int → Bool
  | 0, _, _ => false
  | fuel + 1, cur, tgt =>
    if cur = tgt then false
    else if (get_square b cur).isSome then true
    else occupiedOnWalk b stepr stepc fuel (cur.1 + stepr, cur.2 + stepc) tgt

/-- Piece._is_path_clear and Board._path_clear (their bodies are identical):
every square strictly between `s` and `e` is empty. -/
def is_path_clear (b : ChessBoard) (s e : Int × Int) : Bool :=
  let dr := sgn (e.1 - s.1)
  let dc := sgn (e.2 - s.2)
  !(occupiedOnWalk b dr dc 16 (s.1 + dr, s.2 + dc) e)

/-- The body of the scan in Board.is_square_under_attack for the piece in
grid cell (r, c): does that piece attack `sq`, for a defender of `color`?
Note the code reads the attacker's square from `piece.position`, not from the
loop indices, and excludes a piece whose position equals the queried square. -/
def attack_from (b : ChessBoard) (sq : Int × Int) (color : PColor)
    (r c : Nat) : Bool :=
  match get_square b ((r : Int), (c : Int)) with
  | none => false
  | some piece =>
    if piece.color = color then false
    else if piece.pos = sq then false
    else
      let pr := piece.pos.1
      let pcc := piece.pos.2
      match piece.kind with
      | .pawn =>
        let dir : Int := if piece.color = .white then 1 else -1
        decide (sq = (pr + dir, pcc - 1) ∨ sq = (pr + dir, pcc + 1))
      | .knight =>
        decide (((pr - sq.1).natAbs, (pcc - sq.2).natAbs) = (1, 2) ∨
                ((pr - sq.1).natAbs, (pcc - sq.2).natAbs) = (2, 1))
      | .king =>
        decide (max (pr - sq.1).natAbs (pcc - sq.2).natAbs = 1)
      | .rook =>
        decide (pr = sq.1 ∨ pcc = sq.2) && is_path_clear b piece.pos sq
      | .bishop =>
        decide ((pr - sq.1).natAbs = (pcc - sq.2).natAbs) &&
          is_path_clear b piece.pos sq
      | .queen =>
        decide (pr = sq.1 ∨ pcc = sq.2 ∨
                (pr - sq.1).natAbs = (pcc - sq.2).natAbs) &&
          is_path_clear b piece.pos sq

/-- Board.is_square_under_attack(square, color): scan all 64 cells for an
opposing piece whose elementary capture pattern covers `square`. -/
def is_square_under_attack (b : ChessBoard) (sq : Int × Int)
    (color : PColor) : Bool :=
  (List.range 8).any fun r => (List.range 8).any fun c =>
    attack_from b sq color r c

/-- Pawn.is_valid_move (the board argument is always the Board object, never
None, at every call site in this repository). -/
def pawn_valid (b : ChessBoard) (p : ChessPiece) (np : Int × Int) : Bool :=
  let row := p.pos.1
  let col := p.pos.2
  let dir : Int := if p.color = .white then 1 else -1
  let startRow : Int := if p.color = .white then 1 else 6
  (decide (np.1 = row + dir ∧ np.2 = col) && (get_square b np).isNone) ||
  (decide (np.1 = row + 2 * dir ∧ np.2 = col ∧ row = startRow) &&
    (get_square b (row + dir, col)).isNone && (get_square b np).isNone) ||
  (decide (np.1 = row + dir ∧ (np.2 - col).natAbs = 1) &&
    (match get_square b np with
     | some target => decide (target.color ≠ p.color)
     | none => false))

/-- Rook.is_valid_move. -/
def rook_valid (b : ChessBoard) (p : ChessPiece) (np : Int × Int) : Bool :=
  if p.pos.1 ≠ np.1 ∧ p.pos.2 ≠ np.2 then false
  else if !is_path_clear b p.pos np then false
  else
    match get_square b np with
    | some target => decide (target.color ≠ p.color)
    | none => true

/-- Knight.is_valid_move. -/
def knight_valid (b : ChessBoard) (p : ChessPiece) (np : Int × Int) : Bool :=
  if ((p.pos.1 - np.1).natAbs, (p.pos.2 - np.2).natAbs) = (1, 2) ∨
     ((p.pos.1 - np.1).natAbs, (p.pos.2 - np.2).natAbs) = (2, 1) then
    match get_square b np with
    | some target => decide (target.color ≠ p.color)
    | none => true
  else false

/-- Bishop.is_valid_move. -/
def bishop_valid (b : ChessBoard) (p : ChessPiece) (np : Int × Int) : Bool :=
  if (p.pos.1 - np.1).natAbs ≠ (p.pos.2 - np.2).natAbs then false
  else if !is_path_clear b p.pos np then false
  else
    match get_square b np with
    | some target => decide (target.color ≠ p.color)
    | none => true

/-- Queen.is_valid_move. -/
def queen_valid (b : ChessBoard) (p : ChessPiece) (np : Int × Int) : Bool :=
  if p.pos.1 = np.1 ∨ p.pos.2 = np.2 ∨
     (p.pos.1 - np.1).natAbs = (p.pos.2 - np.2).natAbs then
    if !is_path_clear b p.pos np then false
    else
      match get_square b np with
      | some target => decide (target.color ≠ p.color)
      | none => true
  else false

/-- The kingside branch of King.is_valid_move castling (ncol > col): rook of
the right class on (row, 7) that has never moved, the square crossed by the
king empty, and neither crossed square nor destination under attack. -/
def king_castle_kingside (b : ChessBoard) (p : ChessPiece)
    (row col : Int) : Bool :=
  (match get_square b (row, 7) with
   | some rk => decide (rk.kind = .rook) && !rk.hasMoved
   | none => false) &&
  (get_square b (row, col + 1)).isNone &&
  !is_square_under_attack b (row, col + 1) p.color &&
  !is_square_under_attack b (row, col + 2) p.color

/-- The queenside branch of King.is_valid_move castling (ncol < col). -/
def king_castle_queenside (b : ChessBoard) (p : ChessPiece)
    (row col : Int) : Bool :=
  (match get_square b (row, 0) with
   | some rk => decide (rk.kind = .rook) && !rk.hasMoved
   | none => false) &&
  (get_square b (row, col - 1)).isNone &&
  (get_square b (row, col - 2)).isNone &&
  (get_square b (row, col - 3)).isNone &&
  !is_square_under_attack b (row, col - 1) p.color &&
  !is_square_under_attack b (row, col - 2) p.color

/-- King.is_valid_move.  The board object always provides
is_square_under_attack, so the hasattr-guarded attack checks always run:
a normal one-square move is rejected when its destination is under attack,
and the castling branches check the crossed and destination squares. -/
def king_valid (b : ChessBoard) (p : ChessPiece) (np : Int × Int) : Bool :=
  let row := p.pos.1
  let col := p.pos.2
  if (match get_square b np with
      | some target => decide (target.color = p.color)
      | none => false) then false
  else if (np.1 - row).natAbs ≤ 1 ∧ (np.2 - col).natAbs ≤ 1 then
    !is_square_under_attack b np p.color
  else if np.1 = row ∧ (np.2 - col).natAbs = 2 ∧ p.hasMoved = false then
    if is_square_under_attack b p.pos p.color then false
    else if col < np.2 then king_castle_kingside b p row col
    else king_castle_queenside b p row col
  else false

/-- Piece.is_valid_move: the per-class dispatch of chess_piece.py. -/
def piece_is_valid_move (b : ChessBoard) (p : ChessPiece)
    (np : Int × Int) : Bool :=
  match p.kind with
  | .pawn => pawn_valid b p np
  | .rook => rook_valid b p np
  | .knight => knight_valid b p np
  | .bishop => bishop_valid b p np
  | .queen => queen_valid b p np
  | .king => king_valid b p np

/-- The row-major king search of Board.is_valid_move / Board.is_king_in_check:
the first cell (scanning rows 0..7, columns 0..7) holding a king of `color`. -/
def find_king (b : ChessBoard) (color : PColor) : Option (Int × Int) :=
  (List.range 8).findSome? fun (r : Nat) =>
    (List.range 8).findSome? fun (c : Nat) =>
    match get_square b ((r : Int), (c : Int)) with
    | some p => if p.kind = .king ∧ p.color = color
                then some ((r : Int), (c : Int)) else none
    | none => none

/-- Lines 93-96 of chess_board.py: the board after the piece is lifted from
its origin and placed on the destination, its recorded square updated (the
write-through of `piece.position = (new_x, new_y)` at the destination
cell). -/
def sim_piece_moved (b : ChessBoard) (p : ChessPiece) (np : Int × Int) :
    ChessBoard :=
  setCell (setCell b p.pos none) np (some { p with pos := np })

/-- Lines 98-110 of chess_board.py, the castling-simulation block's locals:
`some (rook_original_pos, rook_new_pos, rook, moved)` exactly when the
Python local `rook` is not None, with `moved` recording whether the inner
isinstance/has_moved test relocated the rook. -/
def castle_info (b : ChessBoard) (p : ChessPiece) (np : Int × Int) :
    Option ((Int × Int) × (Int × Int) × ChessPiece × Bool) :=
  if p.kind = .king ∧ (np.2 - p.pos.2).natAbs = 2 then
    match get_square (sim_piece_moved b p np)
        (p.pos.1, if p.pos.2 < np.2 then 7 else 0) with
    | some rk =>
      some ((p.pos.1, if p.pos.2 < np.2 then 7 else 0),
        (p.pos.1, if p.pos.2 < np.2 then np.2 - 1 else np.2 + 1), rk,
        decide (rk.kind = .rook ∧ rk.hasMoved = false))
    | none => none
  else none

/-- The temporarily mutated board on which Board.is_valid_move evaluates
check (lines 88-110): the piece lifted to its destination and, on the
castling branch, the rook relocated alongside it. -/
def sim_board (b : ChessBoard) (p : ChessPiece) (np : Int × Int) :
    ChessBoard :=
  match castle_info b p np with
  | some (rOrig, rNew, rk, moved) =>
    if moved then
      setCell (setCell (sim_piece_moved b p np) rOrig none) rNew
        (some { rk with pos := rNew })
    else sim_piece_moved b p np
  | none => sim_piece_moved b p np

/-- The restoration sequence of Board.is_valid_move (lines 126-133), under
Python reference semantics: line 127 stores back the object saved from the
origin cell — when that object is the argument piece itself (the call-site
invariant, rendered as the value test `oldOld = some p`), its current value
still carries the destination square until line 129 resets it; the final
`if rook:` block runs whenever the castling block read a non-None rook, and
its `rook.position = rook_original_pos` write-through lands on the cell the
rook was just stored back into. -/
def run_restore (b : ChessBoard) (p : ChessPiece) (np : Int × Int) :
    ChessBoard :=
  let oldNew := get_square b np
  let oldOld := get_square b p.pos
  let b2 := sim_board b p np
  let b3 := setCell b2 p.pos
    (if oldOld = some p then some { p with pos := np } else oldOld)
  let b4 := setCell b3 np oldNew
  let b5 := if oldOld = some p then setCell b4 p.pos (some p) else b4
  match castle_info b p np with
  | some (rOrig, rNew, rk, moved) =>
    let rkCur := if moved then { rk with pos := rNew } else rk
    setCell (setCell (setCell b5 rOrig (some rkCur)) rNew none) rOrig
      (some { rkCur with pos := rOrig })
  | none => b5

/-- Board.is_valid_move as a pure boolean: geometric validity, then king
safety evaluated on the simulated board (a board with no king of the moving
colour counts as not in check).  The state restoration of the Python method
is the subject of `board_is_valid_move_run`. -/
def board_is_valid_move (b : ChessBoard) (p : ChessPiece)
    (np : Int × Int) : Bool :=
  piece_is_valid_move b p np &&
  (match find_king (sim_board b p np) p.color with
   | some kp => !is_square_under_attack (sim_board b p np) kp p.color
   | none => true)

/-- Board.is_valid_move with its state effect: the simulate-then-restore
sequence of lines 84-135. -/
def board_is_valid_move_run (b : ChessBoard) (p : ChessPiece)
    (np : Int × Int) : Bool × ChessBoard :=
  if !piece_is_valid_move b p np then (false, b)
  else
    let inCheck := match find_king (sim_board b p np) p.color with
      | some kp => is_square_under_attack (sim_board b p np) kp p.color
      | none => false
    (!inCheck, run_restore b p np)

/-- Board.move_piece: re-validate, then apply the move — piece to the
destination, origin cleared, castling rook relocated with its flag set, and
the mover's has-moved flag set when the piece carries one (Rook or King). -/
def move_piece (b : ChessBoard) (cur np : Int × Int) : Option ChessBoard :=
  match get_square b cur with
  | none => none
  | some piece =>
    if board_is_valid_move b piece np then
      let moved := { piece with pos := np }
      let b1 := setCell (setCell b np (some moved)) cur none
      let b2 :=
        if piece.kind = .king ∧ (np.2 - cur.2).natAbs = 2 then
          let rookCol : Int := if cur.2 < np.2 then 7 else 0
          let newRookCol : Int := if cur.2 < np.2 then np.2 - 1 else np.2 + 1
          match get_square b1 (cur.1, rookCol) with
          | some rk =>
            if rk.kind = .rook ∧ rk.hasMoved = false then
              setCell (setCell b1 (cur.1, rookCol) none) (cur.1, newRookCol)
                (some { rk with pos := (cur.1, newRookCol), hasMoved := true })
            else b1
          | none => b1
        else b1
      let b3 :=
        if piece.kind = .rook ∨ piece.kind = .king then
          setCell b2 np (some { moved with hasMoved := true })
        else b2
      some b3
    else none

/-- Board.is_king_in_check. -/
def is_king_in_check (b : ChessBoard) (color : PColor) : Bool :=
  match find_king b color with
  | none => false
  | some kp => is_square_under_attack b kp color

/-- Board.has_valid_moves: some piece of `color` has a valid move to some of
the 64 squares. -/
def has_valid_moves (b : ChessBoard) (color : PColor) : Bool :=
  (List.range 8).any fun r => (List.range 8).any fun c =>
    match get_square b ((r : Int), (c : Int)) with
    | none => false
    | some piece =>
      if piece.color = color then
        (List.range 8).any fun tr => (List.range 8).any fun tc =>
          board_is_valid_move b piece ((tr : Int), (tc : Int))
      else false

/-- Board.is_checkmate. -/
def is_checkmate (b : ChessBoard) (color : PColor) : Bool :=
  is_king_in_check b color && !has_valid_moves b color

/-- Board.is_stalemate. -/
def is_stalemate (b : ChessBoard) (color : PColor) : Bool :=
  !is_king_in_check b color && !has_valid_moves b color

/-- The Game state of game_logic.py: board, side to move, move history. -/
structure Game where
  board : ChessBoard
  turn : PColor
  history : List ((Int × Int) × (Int × Int))
deriving DecidableEq

/-- Game.is_path_blocked: note the step is computed with Python floor
division `dx // steps`, not with a sign function. -/
def is_path_blocked (g : ChessBoard) (s e : Int × Int) : Bool :=
  let dx := e.1 - s.1
  let dy := e.2 - s.2
  let steps : Int := max dx.natAbs dy.natAbs
  if steps ≤ 1 then false
  else
    let stepX := if dx = 0 then 0 else Int.fdiv dx steps
    let stepY := if dy = 0 then 0 else Int.fdiv dy steps
    occupiedOnWalk g stepX stepY 16 (s.1 + stepX, s.2 + stepY) e

/-- Outcome of Game.make_move: Python returns False on the rejection paths
and the strings "checkmate" / "stalemate" / "continue" otherwise. -/
inductive MoveResult
  | rejected
  | checkmate
  | stalemate
  | cont
deriving DecidableEq, Repr

/-- Game.make_move: reject when no piece stands at the start, the piece is
not the side to move, the legality validator refuses, a slider's path is
re-checked as blocked, or Board.move_piece refuses; otherwise apply, record
history, switch the turn and classify the new side to move.  On every
rejection path the Python method leaves the game untouched (the validator's
internal mutation restores itself — claim C1), which the value-level model
renders by returning `g` unchanged. -/
def make_move (g : Game) (s e : Int × Int) : MoveResult × Game :=
  match get_square g.board s with
  | none => (.rejected, g)
  | some piece =>
    if piece.color ≠ g.turn then (.rejected, g)
    else if !board_is_valid_move g.board piece e then (.rejected, g)
    else if (piece.kind = .rook ∨ piece.kind = .bishop ∨ piece.kind = .queen) &&
            is_path_blocked g.board s e then (.rejected, g)
    else
      match move_piece g.board s e with
      | none => (.rejected, g)
      | some b2 =>
        let g2 : Game := { board := b2, turn := g.turn.other,
                           history := g.history ++ [(s, e)] }
        if is_checkmate b2 g2.turn then (.checkmate, g2)
        else if is_stalemate b2 g2.turn then (.stalemate, g2)
        else (.cont, g2)

/-- Well-formed board: every piece records the square of the cell holding it
(the bidirectional grid/position consistency invariant of the data model). -/
def board_wf (b : ChessBoard) : Prop :=
  ∀ (r c : Fin 8) (p : ChessPiece), b r c = some p →
    p.pos = ((r : Int), (c : Int))

instance (b : ChessBoard) : Decidable (board_wf b) := by
  unfold board_wf; infer_instance

/-- Python indexing of the 8-row grid does not raise for this pair. -/
def idxOk (p : Int × Int) : Prop :=
  (wrapIdx p.1).isSome = true ∧ (wrapIdx p.2).isSome = true

instance (p : Int × Int) : Decidable (idxOk p) := by
  unfold idxOk; infer_instance

/-- Whether a call to Game.make_move raises an uncaught IndexError.  The
start square is read raw (game_logic.py line 34); when the piece is the side
to move and its geometric check passes — the geometric reads all go through
Piece._get_square, which catches IndexError — Board.is_valid_move reads
`self.board[new_x][new_y]` raw (chess_board.py line 90), which raises exactly
when a coordinate of the destination is outside [-8, 8).  All later raw
reads and writes of an accepted or rejected move stay within indexable
range once the destination is indexable. -/
def make_move_raises (g : Game) (s e : Int × Int) : Bool :=
  if ¬ idxOk s then true
  else
    match get_square g.board s with
    | none => false
    | some piece =>
      if piece.color ≠ g.turn then false
      else piece_is_valid_move g.board piece e && !(decide (idxOk e))

/-! Basic facts about index wrapping and cell reads/writes. -/

theorem wrapIdx_coe (i : Fin 8) : wrapIdx (i : Int) = some i := by
  unfold wrapIdx
  have h : (0 : Int) ≤ (i : Int) ∧ (i : Int) < 8 := by
    constructor
    · exact Int.natCast_nonneg _
    · exact_mod_cast i.isLt
  rw [dif_pos h]
  congr 1

theorem fin_eq_iff_int {i j : Fin 8} : i = j ↔ ((i : Int) = (j : Int)) := by
  constructor
  · intro h; rw [h]
  · intro h; apply Fin.ext; exact_mod_cast h

theorem inB_fin {p : Int × Int} (hp : inB p) :
    ∃ i j : Fin 8, p = ((i : Int), (j : Int)) := by
  obtain ⟨h1, h2, h3, h4⟩ := hp
  refine ⟨⟨p.1.toNat, by omega⟩, ⟨p.2.toNat, by omega⟩, ?_⟩
  have e1 : ((p.1.toNat : Nat) : Int) = p.1 := by omega
  have e2 : ((p.2.toNat : Nat) : Int) = p.2 := by omega
  exact Prod.ext (by simpa using e1.symm) (by simpa using e2.symm)

theorem setCell_fin (b : ChessBoard) (v : Option ChessPiece) (i j i' j' : Fin 8) :
    setCell b ((i : Int), (j : Int)) v i' j' =
      if i' = i ∧ j' = j then v else b i' j' := by
  unfold setCell
  rw [wrapIdx_coe, wrapIdx_coe]

theorem get_square_fin (b : ChessBoard) (i j : Fin 8) :
    get_square b ((i : Int), (j : Int)) = b i j := by
  unfold get_square
  rw [wrapIdx_coe, wrapIdx_coe]

theorem setCell_apply_inB {p : Int × Int} (hp : inB p) (b : ChessBoard)
    (v : Option ChessPiece) (i j : Fin 8) :
    setCell b p v i j = if ((i : Int), (j : Int)) = p then v else b i j := by
  obtain ⟨pi, pj, rfl⟩ := inB_fin hp
  rw [setCell_fin]
  by_cases h : i = pi ∧ j = pj
  · rw [if_pos h, if_pos (by rw [h.1, h.2])]
  · rw [if_neg h, if_neg ?_]
    intro he
    exact h ⟨fin_eq_iff_int.2 (congrArg Prod.fst he),
      fin_eq_iff_int.2 (congrArg Prod.snd he)⟩

theorem get_square_eq_cell {p : Int × Int} (b : ChessBoard)
    (i j : Fin 8) (hij : ((i : Int), (j : Int)) = p) :
    get_square b p = b i j := by
  rw [← hij, get_square_fin]

theorem inB_coe (i j : Fin 8) : inB ((i : Int), (j : Int)) := by
  refine ⟨Int.natCast_nonneg _, ?_, Int.natCast_nonneg _, ?_⟩
  · show ((i : Nat) : Int) < 8
    exact_mod_cast i.isLt
  · show ((j : Nat) : Int) < 8
    exact_mod_cast j.isLt

/-- A well-formed board read back through `get_square` at a piece's own
square puts that square inside the board. -/
theorem get_square_self_inB {b : ChessBoard} {q : ChessPiece}
    (hwf : board_wf b) (h : get_square b q.pos = some q) : inB q.pos := by
  unfold get_square at h
  rcases hr : wrapIdx q.pos.1 with _ | i
  · rw [hr] at h; cases h
  rcases hc : wrapIdx q.pos.2 with _ | j
  · rw [hr, hc] at h; cases h
  rw [hr, hc] at h
  have := hwf i j q h
  rw [this]
  exact inB_coe i j

/-- On a well-formed board, the piece read from an in-board square records
that square as its position. -/
theorem get_square_wf_pos {b : ChessBoard} {p : Int × Int} {q : ChessPiece}
    (hwf : board_wf b) (hp : inB p) (h : get_square b p = some q) :
    q.pos = p := by
  obtain ⟨i, j, rfl⟩ := inB_fin hp
  rw [get_square_fin] at h
  exact hwf i j q h

/-! Congruence of the attack oracle and the king search under changes that
keep each cell's kind, colour and recorded square (only has-moved differs). -/

/-- Projection of a piece to the fields the attack oracle and king search
read: kind, colour and square (never the has-moved flag). -/
def projP (p : ChessPiece) : PKind × PColor × (Int × Int) :=
  (p.kind, p.color, p.pos)

/-- Cell-level projection. -/
def projC (o : Option ChessPiece) : Option (PKind × PColor × (Int × Int)) :=
  o.map projP

theorem get_square_proj {b b' : ChessBoard}
    (h : ∀ i j, projC (b i j) = projC (b' i j)) (p : Int × Int) :
    projC (get_square b p) = projC (get_square b' p) := by
  unfold get_square
  rcases wrapIdx p.1 with _ | i
  · rfl
  rcases wrapIdx p.2 with _ | j
  · rfl
  exact h i j

theorem occupiedOnWalk_congr {b b' : ChessBoard}
    (h : ∀ i j, projC (b i j) = projC (b' i j)) (sr sc : Int) :
    ∀ (fuel : Nat) (cur tgt : Int × Int),
      occupiedOnWalk b sr sc fuel cur tgt =
        occupiedOnWalk b' sr sc fuel cur tgt := by
  intro fuel
  induction fuel with
  | zero => intro cur tgt; rfl
  | succ n ih =>
    intro cur tgt
    unfold occupiedOnWalk
    have hsome : (get_square b cur).isSome = (get_square b' cur).isSome := by
      have := get_square_proj h cur
      rcases e : get_square b cur with _ | q <;>
        rcases e' : get_square b' cur with _ | q' <;>
          simp [e, e', projC] at this ⊢
    rw [hsome, ih]

theorem is_path_clear_congr {b b' : ChessBoard}
    (h : ∀ i j, projC (b i j) = projC (b' i j)) (s e : Int × Int) :
    is_path_clear b s e = is_path_clear b' s e := by
  unfold is_path_clear
  exact congrArg (fun x => !x) (occupiedOnWalk_congr h _ _ 16 _ _)

theorem attack_from_congr {b b' : ChessBoard}
    (h : ∀ i j, projC (b i j) = projC (b' i j)) (sq : Int × Int)
    (color : PColor) (r c : Nat) :
    attack_from b sq color r c = attack_from b' sq color r c := by
  unfold attack_from
  have hg := get_square_proj h ((r : Int), (c : Int))
  rcases e : get_square b ((r : Int), (c : Int)) with _ | q <;>
    rcases e' : get_square b' ((r : Int), (c : Int)) with _ | q'
  · rfl
  · rw [e, e'] at hg; cases hg
  · rw [e, e'] at hg; cases hg
  · rw [e, e'] at hg
    rcases q with ⟨k, col, pos, m⟩
    rcases q' with ⟨k', col', pos', m'⟩
    simp only [projC, projP, Option.map_some', Option.some.injEq,
      Prod.mk.injEq] at hg
    obtain ⟨rfl, rfl, rfl⟩ := hg
    cases k <;> simp [is_path_clear_congr h]

theorem is_square_under_attack_congr {b b' : ChessBoard}
    (h : ∀ i j, projC (b i j) = projC (b' i j)) (sq : Int × Int)
    (color : PColor) :
    is_square_under_attack b sq color = is_square_under_attack b' sq color := by
  unfold is_square_under_attack
  apply congrArg
  funext r
  apply congrArg
  funext c
  exact attack_from_congr h sq color r c

theorem find_king_congr {b b' : ChessBoard}
    (h : ∀ i j, projC (b i j) = projC (b' i j)) (color : PColor) :
    find_king b color = find_king b' color := by
  unfold find_king
  refine congrArg (fun f => List.findSome? f (List.range 8)) ?_
  funext r
  refine congrArg (fun f => List.findSome? f (List.range 8)) ?_
  funext c
  have hg := get_square_proj h ((r : Int), (c : Int))
  rcases e : get_square b ((r : Int), (c : Int)) with _ | q <;>
    rcases e' : get_square b' ((r : Int), (c : Int)) with _ | q'
  · rfl
  · rw [e, e'] at hg; cases hg
  · rw [e, e'] at hg; cases hg
  · rw [e, e'] at hg
    rcases q with ⟨k, col, pos, m⟩
    rcases q' with ⟨k', col', pos', m'⟩
    simp only [projC, projP, Option.map_some', Option.some.injEq,
      Prod.mk.injEq] at hg
    obtain ⟨rfl, rfl, rfl⟩ := hg
    rfl

/-! Concrete boards used in counterexamples and witnesses. -/

/-- The empty grid. -/
def emptyBoard : ChessBoard := fun _ _ => none

/-- Place a piece on a square, recording that square as its position. -/
def placePiece (b : ChessBoard) (r c : Nat) (k : PKind) (col : PColor)
    (m : Bool) : ChessBoard :=
  setCell b ((r : Int), (c : Int)) (some ⟨k, col, ((r : Int), (c : Int)), m⟩)

/-- Board refuting C6: white king on (0,0), black rook on (7,0).  The square
(1,0) is empty and adjacent to the king but covered by the rook. -/
def c6Board : ChessBoard :=
  placePiece (placePiece emptyBoard 0 0 .king .white false) 7 0 .rook .black true

/-- The white king of `c6Board`. -/
def c6King : ChessPiece := ⟨.king, .white, (0, 0), false⟩

/-- C6 counterexample: King.is_valid_move DOES consult the attack oracle for
a plain one-square move.  The destination (1,0) is exactly one square from
the king and empty, yet the geometric validity check returns false because
the square is under attack — contradicting the claim that the result is true
regardless of attacks. -/
theorem claim_C6_counterexample :
    piece_is_valid_move c6Board c6King (1, 0) = false ∧
    get_square c6Board (1, 0) = none ∧
    is_square_under_attack c6Board (1, 0) PColor.white = true ∧
    max ((1 : Int) - c6King.pos.1).natAbs ((0 : Int) - c6King.pos.2).natAbs = 1 ∧
    board_wf c6Board ∧ get_square c6Board c6King.pos = some c6King := by
  decide

/-- C6 amended: for a king and a destination exactly one square away that is
not occupied by a same-colour piece, the geometric validity check King.is_valid_move
returns true exactly when the destination square is not attacked — the
normal-move branch itself consults the attack oracle. -/
theorem claim_C6 (b : ChessBoard) (pc : ChessPiece) (np : Int × Int)
    (hk : pc.kind = .king)
    (hadj : max (np.1 - pc.pos.1).natAbs (np.2 - pc.pos.2).natAbs = 1)
    (htgt : ∀ t, get_square b np = some t → t.color ≠ pc.color) :
    piece_is_valid_move b pc np = true ↔
      is_square_under_attack b np pc.color = false := by
  simp only [piece_is_valid_move, hk]
  unfold king_valid
  have h1 : ¬ ((match get_square b np with
      | some target => decide (target.color = pc.color)
      | none => false) = true) := by
    rcases e : get_square b np with _ | t
    · simp
    · simpa using htgt t e
  rw [if_neg h1, if_pos (by omega :
    (np.1 - pc.pos.1).natAbs ≤ 1 ∧ (np.2 - pc.pos.2).natAbs ≤ 1)]
  simp [Bool.not_eq_true']

/-- Witness for the C6 amended theorem: white king on (0,0) moving to the
unattacked adjacent square (0,1) on the counterexample board. -/
theorem claim_C6_witness :
    piece_is_valid_move c6Board c6King (0, 1) = true ↔
      is_square_under_attack c6Board (0, 1) PColor.white = false :=
  claim_C6 c6Board c6King (0, 1) (by decide) (by decide)
    (by
      intro t ht
      rw [show get_square c6Board (0, 1) = none from by decide] at ht
      cases ht)

/-- Board exposing the missing bounds check (C5): a white rook on (0,0) with
the rest of its row empty, the black king far away on (7,7). -/
def c5Board : ChessBoard :=
  placePiece (placePiece emptyBoard 0 0 .rook .white false) 7 7 .king .black false

/-- The game state around `c5Board`, white to move. -/
def c5Game : Game := ⟨c5Board, .white, []⟩

/-- The white rook of `c5Board`. -/
def c5Rook : ChessPiece := ⟨.rook, .white, (0, 0), false⟩

/-- C5: there is no bounds check.  For the off-board destination (0,9) the
rook's geometric test passes (its reads go through Piece._get_square, which
silently treats IndexError as an empty square), and Game.make_move then
raises an uncaught IndexError at the raw read of chess_board.py line 90
instead of returning a rejection. -/
theorem claim_C5 :
    make_move_raises c5Game (0, 0) (0, 9) = true ∧
    piece_is_valid_move c5Board c5Rook (0, 9) = true ∧
    ¬ inB (0, 9) ∧ board_wf c5Board ∧
    get_square c5Board (0, 0) = some c5Rook := by
  decide

/-! Claim C3: the castling branch of King.is_valid_move. -/

/-- The rook-eligibility test of the castling branches, as an existential. -/
theorem rook_cell_iff (b : ChessBoard) (q : Int × Int) :
    ((match get_square b q with
      | some rk => decide (rk.kind = .rook) && !rk.hasMoved
      | none => false) = true) ↔
    ∃ rk, get_square b q = some rk ∧ rk.kind = .rook ∧ rk.hasMoved = false := by
  rcases e : get_square b q with _ | rk
  · simp
  · simp [Bool.and_eq_true, Bool.not_eq_true', decide_eq_true_eq]

/-- The leading same-colour-destination test of King.is_valid_move, as a
universally quantified statement. -/
theorem top_check_iff (b : ChessBoard) (pc : ChessPiece) (np : Int × Int) :
    (¬ ((match get_square b np with
        | some target => decide (target.color = pc.color)
        | none => false) = true)) ↔
    ∀ t, get_square b np = some t → t.color ≠ pc.color := by
  rcases e : get_square b np with _ | t
  · simp
  · simp [decide_eq_true_eq]

/-- Board refuting the C3 iff: white king (0,4) and white rook (0,7) both
unmoved, a black knight on (0,6) — the destination square, which lies
strictly between king and rook and is not empty. -/
def c3Board : ChessBoard :=
  placePiece (placePiece (placePiece emptyBoard 0 4 .king .white false)
    0 7 .rook .white false) 0 6 .knight .black false

/-- The white king of `c3Board`. -/
def c3King : ChessPiece := ⟨.king, .white, (0, 4), false⟩

/-- C3 counterexample: the kingside castle (0,4)→(0,6) is accepted by both
King.is_valid_move and the full validator although the square (0,6), strictly
between king and rook, is occupied (by a black knight, which gets captured).
The claimed only-if direction — acceptance requires every square strictly
between king and rook to be empty — is false. -/
theorem claim_C3_counterexample :
    piece_is_valid_move c3Board c3King (0, 6) = true ∧
    board_is_valid_move c3Board c3King (0, 6) = true ∧
    (move_piece c3Board (0, 4) (0, 6)).isSome = true ∧
    get_square c3Board (0, 6) ≠ none ∧
    board_wf c3Board ∧ get_square c3Board c3King.pos = some c3King := by
  decide

/-- Board of the C3 scenario: white king (0,4) and white rook (0,7), both
unmoved, nothing else on the board. -/
def c3ScenarioBoard : ChessBoard :=
  placePiece (placePiece emptyBoard 0 4 .king .white false) 0 7 .rook .white false

/-- The white king of `c3ScenarioBoard`. -/
def c3ScenarioKing : ChessPiece := ⟨.king, .white, (0, 4), false⟩

/-- The board after the scenario's kingside castle. -/
def c3AfterBoard : ChessBoard :=
  (move_piece c3ScenarioBoard (0, 4) (0, 6)).getD emptyBoard

/-- C3 amended.  King.is_valid_move accepts a two-column castling move iff
the king has never moved, the corner rook exists, is a Rook and has never
moved, the castle-side emptiness conditions hold — kingside: the crossed
square (col+1) empty and the destination not holding a same-colour piece
(an enemy piece there is allowed, and captured); queenside: the three
squares (col-1), (col-2), (col-3) empty — and neither the king's current
square, the crossed square, nor the destination is attacked.  In
particular the spec's concrete kingside scenario is accepted and
Board.move_piece puts the rook on (0,5). -/
theorem claim_C3 :
    (∀ (b : ChessBoard) (pc : ChessPiece) (np : Int × Int),
      pc.kind = .king → np.1 = pc.pos.1 → (np.2 - pc.pos.2).natAbs = 2 →
      (piece_is_valid_move b pc np = true ↔
        (pc.hasMoved = false ∧
         is_square_under_attack b pc.pos pc.color = false ∧
         (if pc.pos.2 < np.2 then
            (∃ rk, get_square b (pc.pos.1, 7) = some rk ∧ rk.kind = .rook ∧
              rk.hasMoved = false) ∧
            get_square b (pc.pos.1, pc.pos.2 + 1) = none ∧
            (∀ t, get_square b np = some t → t.color ≠ pc.color) ∧
            is_square_under_attack b (pc.pos.1, pc.pos.2 + 1) pc.color = false ∧
            is_square_under_attack b np pc.color = false
          else
            (∃ rk, get_square b (pc.pos.1, 0) = some rk ∧ rk.kind = .rook ∧
              rk.hasMoved = false) ∧
            get_square b (pc.pos.1, pc.pos.2 - 1) = none ∧
            get_square b (pc.pos.1, pc.pos.2 - 2) = none ∧
            get_square b (pc.pos.1, pc.pos.2 - 3) = none ∧
            is_square_under_attack b (pc.pos.1, pc.pos.2 - 1) pc.color = false ∧
            is_square_under_attack b np pc.color = false)))) ∧
    (board_is_valid_move c3ScenarioBoard c3ScenarioKing (0, 6) = true ∧
     (move_piece c3ScenarioBoard (0, 4) (0, 6)).isSome = true ∧
     get_square c3AfterBoard (0, 5) = some ⟨.rook, .white, (0, 5), true⟩ ∧
     get_square c3AfterBoard (0, 6) = some ⟨.king, .white, (0, 6), true⟩ ∧
     get_square c3AfterBoard (0, 7) = none ∧
     get_square c3AfterBoard (0, 4) = none) := by
  constructor
  · intro b pc np hk hrow habs
    simp only [piece_is_valid_move, hk, king_valid]
    rw [if_neg (show ¬ ((np.1 - pc.pos.1).natAbs ≤ 1 ∧
        (np.2 - pc.pos.2).natAbs ≤ 1) by omega)]
    cases hm : pc.hasMoved with
    | true => simp
    | false =>
      rw [if_pos (show np.1 = pc.pos.1 ∧ (np.2 - pc.pos.2).natAbs = 2 ∧
        false = false from ⟨hrow, habs, rfl⟩)]
      by_cases htop : ((match get_square b np with
          | some target => decide (target.color = pc.color)
          | none => false) = true)
      · -- a same-colour piece on the destination: both sides are false
        rw [if_pos htop]
        simp only [Bool.false_eq_true, false_iff]
        rintro ⟨-, -, hrest⟩
        rcases e : get_square b np with _ | t
        · rw [e] at htop; simp at htop
        · rw [e] at htop
          simp only [decide_eq_true_eq] at htop
          by_cases hside : pc.pos.2 < np.2
          · rw [if_pos hside] at hrest
            exact hrest.2.2.1 t e htop
          · rw [if_neg hside] at hrest
            have hnp : np = (pc.pos.1, pc.pos.2 - 2) := by
              rw [Prod.ext_iff]
              refine ⟨hrow, ?_⟩
              show np.2 = pc.pos.2 - 2
              omega
            rw [hnp] at e
            rw [hrest.2.2.1] at e
            cases e
      · rw [if_neg htop]
        cases hatk : is_square_under_attack b pc.pos pc.color with
        | true => simp [hatk]
        | false =>
          simp only [hatk, Bool.false_eq_true, if_false]
          by_cases hside : pc.pos.2 < np.2
          · have hnp : np = (pc.pos.1, pc.pos.2 + 2) := by
              rw [Prod.ext_iff]
              refine ⟨hrow, ?_⟩
              show np.2 = pc.pos.2 + 2
              omega
            rw [if_pos hside, if_pos hside]
            subst hnp
            unfold king_castle_kingside
            rw [top_check_iff] at htop
            simp only [Bool.and_eq_true, Bool.not_eq_true',
              Option.isNone_iff_eq_none, rook_cell_iff]
            constructor
            · rintro ⟨⟨⟨hrk, hemp⟩, ha1⟩, ha2⟩
              exact ⟨trivial, trivial, hrk, hemp, htop, ha1, ha2⟩
            · rintro ⟨-, -, hrk, hemp, -, ha1, ha2⟩
              exact ⟨⟨⟨hrk, hemp⟩, ha1⟩, ha2⟩
          · have hnp : np = (pc.pos.1, pc.pos.2 - 2) := by
              rw [Prod.ext_iff]
              refine ⟨hrow, ?_⟩
              show np.2 = pc.pos.2 - 2
              omega
            rw [if_neg hside, if_neg hside]
            subst hnp
            unfold king_castle_queenside
            simp only [Bool.and_eq_true, Bool.not_eq_true',
              Option.isNone_iff_eq_none, rook_cell_iff]
            constructor
            · rintro ⟨⟨⟨⟨⟨hrk, h1⟩, h2⟩, h3⟩, ha1⟩, ha2⟩
              exact ⟨trivial, trivial, hrk, h1, h2, h3, ha1, ha2⟩
            · rintro ⟨-, -, hrk, h1, h2, h3, ha1, ha2⟩
              exact ⟨⟨⟨⟨⟨hrk, h1⟩, h2⟩, h3⟩, ha1⟩, ha2⟩
  · refine ⟨by decide, by decide, by decide, by decide, by decide, by decide⟩

/-- Witness for the C3 amended equivalence, instantiated at the scenario
board: the kingside castle is accepted. -/
theorem claim_C3_witness :
    piece_is_valid_move c3ScenarioBoard c3ScenarioKing (0, 6) = true :=
  (claim_C3.1 c3ScenarioBoard c3ScenarioKing (0, 6) (by decide) (by decide)
      (by decide)).2
    ⟨by decide, by decide, by
      rw [if_pos (by decide : c3ScenarioKing.pos.2 < (6 : Int))]
      refine ⟨⟨⟨.rook, .white, (0, 7), false⟩, by decide, by decide, by decide⟩,
        by decide, ?_, by decide, by decide⟩
      intro t ht
      rw [show get_square c3ScenarioBoard (0, 6) = none from by decide] at ht
      cases ht⟩

/-! Claim C4: characterisation of the attack oracle. -/

/-- Spec-modelled elementary capture pattern, from the claim's wording:
a pawn covers only its two forward-diagonal squares, a knight the
(±1,±2)/(±2,±1) offsets, a king the one-square-adjacent squares, and
rook/bishop/queen any square on an unobstructed straight or diagonal line. -/
def spec_covers (b : ChessBoard) (p : ChessPiece) (sq : Int × Int) : Prop :=
  match p.kind with
  | .pawn =>
    let dir : Int := if p.color = .white then 1 else -1
    sq = (p.pos.1 + dir, p.pos.2 - 1) ∨ sq = (p.pos.1 + dir, p.pos.2 + 1)
  | .knight =>
    ((p.pos.1 - sq.1).natAbs = 1 ∧ (p.pos.2 - sq.2).natAbs = 2) ∨
    ((p.pos.1 - sq.1).natAbs = 2 ∧ (p.pos.2 - sq.2).natAbs = 1)
  | .king =>
    (p.pos.1 - sq.1).natAbs ≤ 1 ∧ (p.pos.2 - sq.2).natAbs ≤ 1 ∧ p.pos ≠ sq
  | .rook =>
    (p.pos.1 = sq.1 ∨ p.pos.2 = sq.2) ∧ is_path_clear b p.pos sq = true
  | .bishop =>
    (p.pos.1 - sq.1).natAbs = (p.pos.2 - sq.2).natAbs ∧
      is_path_clear b p.pos sq = true
  | .queen =>
    (p.pos.1 = sq.1 ∨ p.pos.2 = sq.2 ∨
      (p.pos.1 - sq.1).natAbs = (p.pos.2 - sq.2).natAbs) ∧
      is_path_clear b p.pos sq = true

/-- Spec-modelled attack predicate, from the claim's wording: some piece of
the opposite colour — excluding any piece standing on the queried square
itself — covers the square with its elementary capture pattern. -/
def spec_attacked (b : ChessBoard) (sq : Int × Int) (color : PColor) : Prop :=
  ∃ (r c : Fin 8) (p : ChessPiece), b r c = some p ∧ p.color ≠ color ∧
    ((r : Int), (c : Int)) ≠ sq ∧ spec_covers b p sq

theorem attack_from_iff (b : ChessBoard) (sq : Int × Int) (color : PColor)
    (hwf : board_wf b) (r c : Fin 8) :
    attack_from b sq color (r : Nat) (c : Nat) = true ↔
      ∃ p, b r c = some p ∧ p.color ≠ color ∧ ((r : Int), (c : Int)) ≠ sq ∧
        spec_covers b p sq := by
  have hcell : get_square b ((((r : Nat)) : Int), (((c : Nat)) : Int)) = b r c :=
    get_square_fin b r c
  unfold attack_from
  rw [hcell]
  rcases e : b r c with _ | p
  · simp
  · have hp : p.pos = ((r : Int), (c : Int)) := hwf r c p e
    simp only []
    by_cases hcol : p.color = color
    · simp only [if_pos hcol, Bool.false_eq_true, false_iff]
      rintro ⟨p', hp', hc', -, -⟩
      cases hp'
      exact hc' hcol
    · rw [if_neg hcol]
      by_cases hsq : p.pos = sq
      · rw [if_pos hsq]
        simp only [Bool.false_eq_true, false_iff]
        rintro ⟨p', hp', -, hne, -⟩
        cases hp'
        rw [hp] at hsq
        exact hne hsq
      · rw [if_neg hsq]
        have hexists : (∃ p', some p = some p' ∧ p'.color ≠ color ∧
            ((r : Int), (c : Int)) ≠ sq ∧ spec_covers b p' sq) ↔
            spec_covers b p sq := by
          constructor
          · rintro ⟨p', hp', -, -, hcov⟩
            cases hp'
            exact hcov
          · intro hcov
            exact ⟨p, rfl, hcol, by rw [← hp]; exact hsq, hcov⟩
        rw [hexists]
        cases hk : p.kind <;> simp only [spec_covers] <;> rw [hk] <;>
          simp only []
        · -- pawn
          simp [decide_eq_true_eq]
        · -- rook
          simp [Bool.and_eq_true, decide_eq_true_eq]
        · -- knight
          constructor
          · intro h
            rcases (by simpa [decide_eq_true_eq] using h :
                ((p.pos.1 - sq.1).natAbs, (p.pos.2 - sq.2).natAbs) = (1, 2) ∨
                ((p.pos.1 - sq.1).natAbs, (p.pos.2 - sq.2).natAbs) = (2, 1))
              with h' | h'
            · exact Or.inl ⟨congrArg Prod.fst h', congrArg Prod.snd h'⟩
            · exact Or.inr ⟨congrArg Prod.fst h', congrArg Prod.snd h'⟩
          · intro h
            simp only [decide_eq_true_eq]
            rcases h with ⟨h1, h2⟩ | ⟨h1, h2⟩
            · exact Or.inl (by rw [h1, h2])
            · exact Or.inr (by rw [h1, h2])
        · -- bishop
          simp [Bool.and_eq_true, decide_eq_true_eq]
        · -- queen
          simp [Bool.and_eq_true, decide_eq_true_eq]
        · -- king
          simp only [decide_eq_true_eq]
          constructor
          · intro h
            refine ⟨by omega, by omega, ?_⟩
            intro hsame
            rw [hsame] at h
            simp at h
          · rintro ⟨h1, h2, h3⟩
            have hne : ¬ ((p.pos.1 - sq.1).natAbs = 0 ∧
                (p.pos.2 - sq.2).natAbs = 0) := by
              rintro ⟨z1, z2⟩
              apply h3
              rw [Prod.ext_iff]
              omega
            omega

/-- Characterisation of Board.is_square_under_attack: true exactly when an
opposing piece, not itself standing on the queried square, covers the square
with its elementary capture pattern (claim C4's content, shared as a
lemma). -/
theorem is_square_under_attack_iff (b : ChessBoard) (sq : Int × Int)
    (color : PColor) (hwf : board_wf b) :
    is_square_under_attack b sq color = true ↔ spec_attacked b sq color := by
  unfold is_square_under_attack
  rw [List.any_eq_true]
  constructor
  · rintro ⟨r, hr, h⟩
    rw [List.any_eq_true] at h
    obtain ⟨c, hc, h⟩ := h
    rw [List.mem_range] at hr hc
    obtain ⟨p, hp⟩ := (attack_from_iff b sq color hwf ⟨r, hr⟩ ⟨c, hc⟩).1 h
    exact ⟨⟨r, hr⟩, ⟨c, hc⟩, p, hp⟩
  · rintro ⟨r, c, p, h1, h2, h3, h4⟩
    refine ⟨(r : Nat), List.mem_range.2 r.isLt, ?_⟩
    rw [List.any_eq_true]
    exact ⟨(c : Nat), List.mem_range.2 c.isLt,
      (attack_from_iff b sq color hwf r c).2 ⟨p, h1, h2, h3, h4⟩⟩

/-- C4: Board.is_square_under_attack returns true iff some piece of the
opposite colour — excluding any piece standing on the queried square itself —
covers the square with its elementary capture pattern: a pawn via its two
forward-diagonal squares, a knight via the (±1,±2)/(±2,±1) offsets, a king
via one-square adjacency, rook/bishop/queen via an unobstructed straight or
diagonal line.  The embedding is pure state passing: the source function
only reads the grid, which the shallow embedding renders as a function of the
board value with no board output. -/
theorem claim_C4 (b : ChessBoard) (sq : Int × Int) (color : PColor)
    (hwf : board_wf b) :
    is_square_under_attack b sq color = true ↔ spec_attacked b sq color :=
  is_square_under_attack_iff b sq color hwf

/-- Witness for C4: on the C6 board the square (1,0) is attacked (by the
black rook down the file), and the characterisation certifies it. -/
theorem claim_C4_witness :
    is_square_under_attack c6Board (1, 0) PColor.white = true :=
  (claim_C4 c6Board (1, 0) PColor.white (by decide)).2
    ⟨7, 0, ⟨.rook, .black, (7, 0), true⟩, by decide, by decide, by decide,
      by
        show (((7 : Int), (0 : Int)).1 = (1 : Int) ∨ _) ∧ _
        exact ⟨by decide, by decide⟩⟩

/-! Claims C7 and C8: terminal-position classification. -/

/-- Spec-level reading of "no piece of that side has a legal move to any of
the 64 squares". -/
def no_legal_moves (b : ChessBoard) (color : PColor) : Prop :=
  ∀ (r c : Fin 8) (p : ChessPiece), b r c = some p → p.color = color →
    ∀ (tr tc : Fin 8), board_is_valid_move b p ((tr : Int), (tc : Int)) = false

/-- Board.has_valid_moves returns false exactly when no piece of the colour
has a valid move to any square. -/
theorem has_valid_moves_eq_false_iff (b : ChessBoard) (color : PColor) :
    has_valid_moves b color = false ↔ no_legal_moves b color := by
  constructor
  · intro h r c p hcell hcol tr tc
    by_contra hv
    rw [Bool.not_eq_false] at hv
    rw [← Bool.not_eq_true] at h
    apply h
    unfold has_valid_moves
    rw [List.any_eq_true]
    refine ⟨(r : Nat), List.mem_range.2 r.isLt, ?_⟩
    rw [List.any_eq_true]
    refine ⟨(c : Nat), List.mem_range.2 c.isLt, ?_⟩
    rw [get_square_fin b r c, hcell]
    simp only [if_pos hcol]
    rw [List.any_eq_true]
    refine ⟨(tr : Nat), List.mem_range.2 tr.isLt, ?_⟩
    rw [List.any_eq_true]
    exact ⟨(tc : Nat), List.mem_range.2 tc.isLt, hv⟩
  · intro h
    rw [← Bool.not_eq_true]
    intro htrue
    unfold has_valid_moves at htrue
    rw [List.any_eq_true] at htrue
    obtain ⟨r, hr, htrue⟩ := htrue
    rw [List.any_eq_true] at htrue
    obtain ⟨c, hc, htrue⟩ := htrue
    rw [List.mem_range] at hr hc
    rw [get_square_fin b ⟨r, hr⟩ ⟨c, hc⟩] at htrue
    rcases hcell : b ⟨r, hr⟩ ⟨c, hc⟩ with _ | p
    · rw [hcell] at htrue; simp at htrue
    · rw [hcell] at htrue
      simp only [] at htrue
      by_cases hcol : p.color = color
      · rw [if_pos hcol, List.any_eq_true] at htrue
        obtain ⟨tr, htr, htrue⟩ := htrue
        rw [List.any_eq_true] at htrue
        obtain ⟨tc, htc, htrue⟩ := htrue
        rw [List.mem_range] at htr htc
        have := h ⟨r, hr⟩ ⟨c, hc⟩ p hcell hcol ⟨tr, htr⟩ ⟨tc, htc⟩
        rw [this] at htrue
        cases htrue
      · rw [if_neg hcol] at htrue
        cases htrue

/-- C7: after every accepted Game.make_move the side to move is switched,
and the result classifies the new side to move — checkmate iff its king is
attacked and it has no legal move to any of the 64 squares, stalemate iff
its king is not attacked and it has no legal move, and "continue" iff some
legal move exists. -/
theorem claim_C7 (g : Game) (s e : Int × Int) (res : MoveResult) (g2 : Game)
    (h : make_move g s e = (res, g2)) (hres : res ≠ .rejected) :
    g2.turn = g.turn.other ∧
    (res = .checkmate ↔ (is_king_in_check g2.board g2.turn = true ∧
      no_legal_moves g2.board g2.turn)) ∧
    (res = .stalemate ↔ (is_king_in_check g2.board g2.turn = false ∧
      no_legal_moves g2.board g2.turn)) ∧
    (res = .cont ↔ ¬ no_legal_moves g2.board g2.turn) := by
  unfold make_move at h
  rcases hcell : get_square g.board s with _ | piece
  · rw [hcell] at h
    cases h
    exact absurd rfl hres
  · rw [hcell] at h
    simp only [] at h
    by_cases hcol : piece.color ≠ g.turn
    · rw [if_pos hcol] at h
      cases h
      exact absurd rfl hres
    · rw [if_neg hcol] at h
      cases hval : board_is_valid_move g.board piece e with
      | false =>
        rw [hval] at h
        simp only [Bool.not_false, if_pos rfl] at h
        cases h
        exact absurd rfl hres
      | true =>
        rw [hval] at h
        simp only [Bool.not_true, Bool.false_eq_true, if_false] at h
        cases hpb : (decide (piece.kind = PKind.rook ∨ piece.kind = PKind.bishop ∨
            piece.kind = PKind.queen) && is_path_blocked g.board s e) with
        | true =>
          rw [hpb] at h
          simp only [if_pos rfl] at h
          cases h
          exact absurd rfl hres
        | false =>
          rw [hpb] at h
          simp only [Bool.false_eq_true, if_false] at h
          rcases hmp : move_piece g.board s e with _ | b2
          · rw [hmp] at h
            cases h
            exact absurd rfl hres
          · rw [hmp] at h
            simp only [] at h
            cases hcm : is_checkmate b2 g.turn.other with
            | true =>
              rw [hcm] at h
              simp only [if_pos rfl] at h
              cases h
              simp only [is_checkmate, Bool.and_eq_true, Bool.not_eq_true']
                at hcm
              obtain ⟨h1, h2⟩ := hcm
              have hnm := (has_valid_moves_eq_false_iff b2 g.turn.other).1 h2
              refine ⟨rfl, ⟨fun _ => ⟨h1, hnm⟩, fun _ => rfl⟩, ?_, ?_⟩
              · constructor
                · intro hcontra; cases hcontra
                · rintro ⟨hq, -⟩
                  rw [h1] at hq
                  cases hq
              · constructor
                · intro hcontra; cases hcontra
                · intro hq
                  exact absurd hnm hq
            | false =>
              rw [hcm] at h
              simp only [Bool.false_eq_true, if_false] at h
              cases hsm : is_stalemate b2 g.turn.other with
              | true =>
                rw [hsm] at h
                simp only [if_pos rfl] at h
                cases h
                simp only [is_stalemate, Bool.and_eq_true, Bool.not_eq_true']
                  at hsm
                obtain ⟨h1, h2⟩ := hsm
                have hnm := (has_valid_moves_eq_false_iff b2 g.turn.other).1 h2
                refine ⟨rfl, ?_, ⟨fun _ => ⟨h1, hnm⟩, fun _ => rfl⟩, ?_⟩
                · constructor
                  · intro hcontra; cases hcontra
                  · rintro ⟨hq, -⟩
                    rw [h1] at hq
                    cases hq
                · constructor
                  · intro hcontra; cases hcontra
                  · intro hq
                    exact absurd hnm hq
              | false =>
                rw [hsm] at h
                simp only [Bool.false_eq_true, if_false] at h
                cases h
                have hmoves : has_valid_moves b2 g.turn.other = true := by
                  by_contra hmv
                  rw [Bool.not_eq_true] at hmv
                  simp only [is_checkmate, is_stalemate, hmv, Bool.not_false,
                    Bool.and_true] at hcm hsm
                  cases hk : is_king_in_check b2 g.turn.other with
                  | true => rw [hk] at hcm; cases hcm
                  | false => rw [hk] at hsm; simp at hsm
                refine ⟨rfl, ?_, ?_, ?_⟩
                · constructor
                  · intro hcontra; cases hcontra
                  · rintro ⟨-, hq⟩
                    rw [(has_valid_moves_eq_false_iff b2 g.turn.other).2 hq]
                      at hmoves
                    cases hmoves
                · constructor
                  · intro hcontra; cases hcontra
                  · rintro ⟨-, hq⟩
                    rw [(has_valid_moves_eq_false_iff b2 g.turn.other).2 hq]
                      at hmoves
                    cases hmoves
                · refine ⟨fun _ hq => ?_, fun _ => rfl⟩
                  rw [(has_valid_moves_eq_false_iff b2 g.turn.other).2 hq]
                    at hmoves
                  cases hmoves

/-- Game for the C7 witness: two lone kings, white to move. -/
def c7Game : Game :=
  ⟨placePiece (placePiece emptyBoard 0 0 .king .white false)
    7 7 .king .black false, .white, []⟩

/-- Witness for C7: the accepted king move (0,0)→(0,1) switches the turn to
black and is classified "continue" because black still has legal moves. -/
theorem claim_C7_witness :
    (make_move c7Game (0, 0) (0, 1)).2.turn = c7Game.turn.other ∧
    ((make_move c7Game (0, 0) (0, 1)).1 = .cont ↔
      ¬ no_legal_moves (make_move c7Game (0, 0) (0, 1)).2.board
        (make_move c7Game (0, 0) (0, 1)).2.turn) :=
  have h := claim_C7 c7Game (0, 0) (0, 1) (make_move c7Game (0, 0) (0, 1)).1
    (make_move c7Game (0, 0) (0, 1)).2 rfl (by decide)
  ⟨h.1, h.2.2.2⟩

/-- A checkmate (stalemate) outcome of Game.make_move certifies
Board.is_checkmate (Board.is_stalemate) of the new side to move on the new
board. -/
theorem make_move_result_state (g0 : Game) (s0 e0 : Int × Int)
    (res : MoveResult) (g : Game) (h : make_move g0 s0 e0 = (res, g)) :
    (res = .checkmate → is_checkmate g.board g.turn = true) ∧
    (res = .stalemate → is_stalemate g.board g.turn = true) ∧
    (res = .rejected → g = g0) := by
  unfold make_move at h
  rcases hcell : get_square g0.board s0 with _ | piece
  · rw [hcell] at h
    cases h
    exact ⟨(fun hq => nomatch hq), (fun hq => nomatch hq), (fun _ => rfl)⟩
  · rw [hcell] at h
    simp only [] at h
    by_cases hcol : piece.color ≠ g0.turn
    · rw [if_pos hcol] at h
      cases h
      exact ⟨(fun hq => nomatch hq), (fun hq => nomatch hq), (fun _ => rfl)⟩
    · rw [if_neg hcol] at h
      cases hval : board_is_valid_move g0.board piece e0 with
      | false =>
        rw [hval] at h
        simp only [Bool.not_false, if_pos rfl] at h
        cases h
        exact ⟨(fun hq => nomatch hq), (fun hq => nomatch hq), (fun _ => rfl)⟩
      | true =>
        rw [hval] at h
        simp only [Bool.not_true, Bool.false_eq_true, if_false] at h
        cases hpb : (decide (piece.kind = PKind.rook ∨
            piece.kind = PKind.bishop ∨ piece.kind = PKind.queen) &&
            is_path_blocked g0.board s0 e0) with
        | true =>
          rw [hpb] at h
          simp only [if_pos rfl] at h
          cases h
          exact ⟨(fun hq => nomatch hq), (fun hq => nomatch hq), (fun _ => rfl)⟩
        | false =>
          rw [hpb] at h
          simp only [Bool.false_eq_true, if_false] at h
          rcases hmp : move_piece g0.board s0 e0 with _ | b2
          · rw [hmp] at h
            cases h
            exact ⟨(fun hq => nomatch hq), (fun hq => nomatch hq), (fun _ => rfl)⟩
          · rw [hmp] at h
            simp only [] at h
            cases hcm : is_checkmate b2 g0.turn.other with
            | true =>
              rw [hcm] at h
              simp only [if_pos rfl] at h
              cases h
              exact ⟨(fun _ => hcm), (fun hq => nomatch hq), (fun hq => nomatch hq)⟩
            | false =>
              rw [hcm] at h
              simp only [Bool.false_eq_true, if_false] at h
              cases hsm : is_stalemate b2 g0.turn.other with
              | true =>
                rw [hsm] at h
                simp only [if_pos rfl] at h
                cases h
                exact ⟨(fun hq => nomatch hq), (fun _ => hsm), (fun hq => nomatch hq)⟩
              | false =>
                rw [hsm] at h
                simp only [Bool.false_eq_true, if_false] at h
                cases h
                exact ⟨(fun hq => nomatch hq), (fun hq => nomatch hq),
                  (fun hq => nomatch hq)⟩

/-- C8: checkmate and stalemate are terminal.  Once Game.make_move has
returned the checkmate or stalemate outcome, every subsequent call, for any
pair of in-board squares, is rejected and leaves the game (board, side to
move, history) unchanged: the side to move has no valid move by definition
of the terminal predicates, and the other side is stopped by the turn
check. -/
theorem claim_C8 (g0 : Game) (s0 e0 : Int × Int) (res : MoveResult)
    (g : Game) (h : make_move g0 s0 e0 = (res, g))
    (hres : res = .checkmate ∨ res = .stalemate) :
    ∀ (s e : Int × Int), inB s → inB e → make_move g s e = (.rejected, g) := by
  have hterm := make_move_result_state g0 s0 e0 res g h
  have hnm : has_valid_moves g.board g.turn = false := by
    rcases hres with h' | h'
    · have hq := hterm.1 h'
      simp only [is_checkmate, Bool.and_eq_true, Bool.not_eq_true'] at hq
      exact hq.2
    · have hq := hterm.2.1 h'
      simp only [is_stalemate, Bool.and_eq_true, Bool.not_eq_true'] at hq
      exact hq.2
  have hnlm := (has_valid_moves_eq_false_iff g.board g.turn).1 hnm
  intro s e hs he
  obtain ⟨si, sj, rfl⟩ := inB_fin hs
  obtain ⟨ei, ej, rfl⟩ := inB_fin he
  unfold make_move
  rw [get_square_fin]
  rcases hcell : g.board si sj with _ | piece
  · rfl
  · simp only []
    by_cases hcol : piece.color ≠ g.turn
    · rw [if_pos hcol]
    · rw [if_neg hcol]
      push_neg at hcol
      rw [hnlm si sj piece hcell hcol ei ej]
      rfl

/-- Game for the C8 witness: white king (5,6), white rook (0,0), black king
(7,7); the rook move (0,0)→(7,0) is a back-rank mate. -/
def c8Game : Game :=
  ⟨placePiece (placePiece (placePiece emptyBoard 5 6 .king .white true)
    0 0 .rook .white true) 7 7 .king .black false, .white, []⟩

/-- The game right after the mating rook move. -/
def c8After : Game := (make_move c8Game (0, 0) (7, 0)).2

/-- Witness for C8: the rook move mates, and the subsequent attempt
(7,7)→(6,6) by the mated side is rejected with the game unchanged. -/
theorem claim_C8_witness :
    (make_move c8Game (0, 0) (7, 0)).1 = .checkmate ∧
    make_move c8After (7, 7) (6, 6) = (.rejected, c8After) :=
  ⟨by decide,
    claim_C8 c8Game (0, 0) (7, 0) (make_move c8Game (0, 0) (7, 0)).1 c8After
      rfl (Or.inl (by decide)) (7, 7) (6, 6) (by decide) (by decide)⟩

/-! Claims C10 and C9: the re-validations inside Game.make_move agree with
the first legality verdict. -/

/-- Floor division of a nonzero integer by its absolute value is its sign
(`dx // steps` in Game.is_path_blocked equals the sign step of the other
walks when the move is aligned). -/
theorem fdiv_natAbs (d : Int) (hd : d ≠ 0) :
    Int.fdiv d (d.natAbs : Int) = sgn d := by
  rcases d with n | m
  · have hn : n ≠ 0 := by rintro rfl; exact hd rfl
    have h1 : ((Int.ofNat n).natAbs : Int) = Int.ofNat n := rfl
    rw [h1, Int.fdiv_eq_tdiv (by omega) (by omega), Int.tdiv_self (by omega)]
    unfold sgn
    rw [if_neg (by omega), if_pos (by omega)]
  · have hneg : Int.negSucc m < 0 := Int.negSucc_lt_zero m
    have h1 : ((Int.negSucc m).natAbs : Int) = Int.ofNat (m + 1) := rfl
    rw [h1]
    have h2 : Int.fdiv (Int.negSucc m) (Int.ofNat (m + 1)) =
        Int.negSucc (m / (m + 1)) := rfl
    rw [h2, Nat.div_eq_of_lt (Nat.lt_succ_self m)]
    unfold sgn
    rw [if_neg (by omega), if_neg (by omega)]
    rfl

theorem sgn_of_small (d : Int) (h : d.natAbs ≤ 1) : sgn d = d := by
  unfold sgn
  by_cases h0 : d = 0
  · rw [if_pos h0, h0]
  · rw [if_neg h0]
    by_cases h1 : 0 < d
    · rw [if_pos h1]; omega
    · rw [if_neg h1]; omega

theorem occupiedOnWalk_target (b : ChessBoard) (sr sc : Int) (fuel : Nat)
    (tgt : Int × Int) : occupiedOnWalk b sr sc fuel tgt tgt = false := by
  cases fuel with
  | zero => rfl
  | succ n => simp [occupiedOnWalk]

/-- On an aligned move (same row, same column, or equal coordinate deltas)
Game.is_path_blocked walks exactly the squares the _is_path_clear loops walk,
and reports the complement. -/
theorem is_path_blocked_eq_not_clear (b : ChessBoard) (s e : Int × Int)
    (halign : s.1 = e.1 ∨ s.2 = e.2 ∨
      (e.1 - s.1).natAbs = (e.2 - s.2).natAbs) :
    is_path_blocked b s e = !is_path_clear b s e := by
  unfold is_path_blocked is_path_clear
  simp only []
  rw [← Nat.cast_max]
  by_cases hsteps : ((max (e.1 - s.1).natAbs (e.2 - s.2).natAbs : Nat) : Int) ≤ 1
  · rw [if_pos hsteps]
    have hm : max (e.1 - s.1).natAbs (e.2 - s.2).natAbs ≤ 1 := by
      exact_mod_cast hsteps
    obtain ⟨h1, h2⟩ := Nat.max_le.mp hm
    have hc : (s.1 + sgn (e.1 - s.1), s.2 + sgn (e.2 - s.2)) = e := by
      rw [sgn_of_small _ h1, sgn_of_small _ h2]
      rw [Prod.ext_iff]
      constructor
      · show s.1 + (e.1 - s.1) = e.1
        omega
      · show s.2 + (e.2 - s.2) = e.2
        omega
    rw [hc, occupiedOnWalk_target]
    rfl
  · rw [if_neg hsteps]
    have hx : (if e.1 - s.1 = 0 then 0 else
        Int.fdiv (e.1 - s.1) ((max (e.1 - s.1).natAbs (e.2 - s.2).natAbs : Nat) : Int)) =
        sgn (e.1 - s.1) := by
      by_cases hdx : e.1 - s.1 = 0
      · rw [if_pos hdx, hdx]; rfl
      · rw [if_neg hdx]
        have hmax : max (e.1 - s.1).natAbs (e.2 - s.2).natAbs =
            (e.1 - s.1).natAbs := by
          rcases halign with h | h | h
          · omega
          · have : (e.2 - s.2).natAbs = 0 := by omega
            rw [this]; exact Nat.max_eq_left (Nat.zero_le _)
          · rw [h]; exact Nat.max_self _
        rw [hmax]
        exact fdiv_natAbs _ hdx
    have hy : (if e.2 - s.2 = 0 then 0 else
        Int.fdiv (e.2 - s.2) ((max (e.1 - s.1).natAbs (e.2 - s.2).natAbs : Nat) : Int)) =
        sgn (e.2 - s.2) := by
      by_cases hdy : e.2 - s.2 = 0
      · rw [if_pos hdy, hdy]; rfl
      · rw [if_neg hdy]
        have hmax : max (e.1 - s.1).natAbs (e.2 - s.2).natAbs =
            (e.2 - s.2).natAbs := by
          rcases halign with h | h | h
          · have : (e.1 - s.1).natAbs = 0 := by omega
            rw [this]; exact Nat.max_eq_right (Nat.zero_le _)
          · omega
          · rw [h]; exact Nat.max_self _
        rw [hmax]
        exact fdiv_natAbs _ hdy
    rw [hx, hy, Bool.not_not]

/-- The alignment and path-clearance facts packed inside a successful rook
geometry check. -/
theorem rook_valid_parts (b : ChessBoard) (p : ChessPiece) (np : Int × Int)
    (h : rook_valid b p np = true) :
    (p.pos.1 = np.1 ∨ p.pos.2 = np.2) ∧ is_path_clear b p.pos np = true := by
  unfold rook_valid at h
  by_cases h1 : p.pos.1 ≠ np.1 ∧ p.pos.2 ≠ np.2
  · rw [if_pos h1] at h; cases h
  · have halign : p.pos.1 = np.1 ∨ p.pos.2 = np.2 := by tauto
    rw [if_neg h1] at h
    cases hc : is_path_clear b p.pos np with
    | false => rw [hc] at h; simp at h
    | true => exact ⟨halign, rfl⟩

/-- The alignment and path-clearance facts packed inside a successful bishop
geometry check. -/
theorem bishop_valid_parts (b : ChessBoard) (p : ChessPiece) (np : Int × Int)
    (h : bishop_valid b p np = true) :
    (p.pos.1 - np.1).natAbs = (p.pos.2 - np.2).natAbs ∧
      is_path_clear b p.pos np = true := by
  unfold bishop_valid at h
  by_cases h1 : (p.pos.1 - np.1).natAbs ≠ (p.pos.2 - np.2).natAbs
  · rw [if_pos h1] at h; cases h
  · rw [if_neg h1] at h
    push_neg at h1
    cases hc : is_path_clear b p.pos np with
    | false => rw [hc] at h; simp at h
    | true => exact ⟨h1, rfl⟩

/-- The alignment and path-clearance facts packed inside a successful queen
geometry check. -/
theorem queen_valid_parts (b : ChessBoard) (p : ChessPiece) (np : Int × Int)
    (h : queen_valid b p np = true) :
    (p.pos.1 = np.1 ∨ p.pos.2 = np.2 ∨
      (p.pos.1 - np.1).natAbs = (p.pos.2 - np.2).natAbs) ∧
      is_path_clear b p.pos np = true := by
  unfold queen_valid at h
  by_cases h1 : p.pos.1 = np.1 ∨ p.pos.2 = np.2 ∨
      (p.pos.1 - np.1).natAbs = (p.pos.2 - np.2).natAbs
  · rw [if_pos h1] at h
    cases hc : is_path_clear b p.pos np with
    | false => rw [hc] at h; simp at h
    | true => exact ⟨h1, rfl⟩
  · rw [if_neg h1] at h; cases h

/-- For a slider whose geometry check passed, the Game.is_path_blocked
re-check agrees: the path is not blocked. -/
theorem slider_not_blocked (b : ChessBoard) (p : ChessPiece) (s e : Int × Int)
    (hpos : p.pos = s)
    (hk : p.kind = .rook ∨ p.kind = .bishop ∨ p.kind = .queen)
    (hgeom : piece_is_valid_move b p e = true) :
    is_path_blocked b s e = false := by
  have key : (s.1 = e.1 ∨ s.2 = e.2 ∨ (e.1 - s.1).natAbs = (e.2 - s.2).natAbs)
      ∧ is_path_clear b s e = true := by
    rcases hk with hk | hk | hk <;>
      simp only [piece_is_valid_move, hk] at hgeom
    · obtain ⟨ha, hc⟩ := rook_valid_parts b p e hgeom
      rw [hpos] at ha hc
      exact ⟨by tauto, hc⟩
    · obtain ⟨ha, hc⟩ := bishop_valid_parts b p e hgeom
      rw [hpos] at ha hc
      exact ⟨Or.inr (Or.inr (by omega)), hc⟩
    · obtain ⟨ha, hc⟩ := queen_valid_parts b p e hgeom
      rw [hpos] at ha hc
      refine ⟨?_, hc⟩
      rcases ha with h | h | h
      · exact Or.inl h
      · exact Or.inr (Or.inl h)
      · exact Or.inr (Or.inr (by omega))
  rw [is_path_blocked_eq_not_clear b s e key.1, key.2]
  rfl

/-- Under the call-site invariant, a first positive legality verdict makes
Game.make_move accept the move: the sliding-piece path re-check cannot
report a block, and the second Board.is_valid_move inside Board.move_piece
returns the same verdict, so the move is applied. -/
theorem make_move_accepts (g : Game) (s e : Int × Int) (piece : ChessPiece)
    (hwf : board_wf g.board) (hs : inB s)
    (hcell : get_square g.board s = some piece)
    (hcol : piece.color = g.turn)
    (hval : board_is_valid_move g.board piece e = true) :
    move_piece g.board s e ≠ none ∧ (make_move g s e).1 ≠ .rejected := by
  have hpos : piece.pos = s := get_square_wf_pos hwf hs hcell
  have hval' := hval
  unfold board_is_valid_move at hval'
  rw [Bool.and_eq_true] at hval'
  obtain ⟨hgeom, -⟩ := hval'
  have hmp : move_piece g.board s e ≠ none := by
    unfold move_piece
    rw [hcell]
    simp only []
    rw [hval]
    simp
  refine ⟨hmp, ?_⟩
  unfold make_move
  rw [hcell]
  simp only []
  rw [if_neg (show ¬ piece.color ≠ g.turn from fun hne => hne hcol)]
  rw [hval]
  simp only [Bool.not_true, Bool.false_eq_true, if_false]
  have hsl : (decide (piece.kind = PKind.rook ∨ piece.kind = PKind.bishop ∨
      piece.kind = PKind.queen) && is_path_blocked g.board s e) = false := by
    by_cases hk : piece.kind = PKind.rook ∨ piece.kind = PKind.bishop ∨
        piece.kind = PKind.queen
    · rw [slider_not_blocked g.board piece s e hpos hk hgeom]
      simp
    · rw [decide_eq_false hk]
      simp
  rw [hsl]
  simp only [Bool.false_eq_true, if_false]
  rcases hmp2 : move_piece g.board s e with _ | b2
  · exact absurd hmp2 hmp
  · simp only []
    split
    · simp
    · split
      · simp
      · simp

/-- C10: whenever Game.make_move finds a piece of the side to move at the
start square and the first Board.is_valid_move verdict is positive, the two
later internal re-validations agree — the sliding-piece path re-check does
not report a block, Board.move_piece's second verdict is again positive and
the move is applied — so the final "failed to move" branch is unreachable
and the outcome is determined by occupancy at the start square, the piece's
colour, and the single legality verdict. -/
theorem claim_C10 (g : Game) (s e : Int × Int) (piece : ChessPiece)
    (hwf : board_wf g.board) (hs : inB s)
    (hcell : get_square g.board s = some piece)
    (hcol : piece.color = g.turn)
    (hval : board_is_valid_move g.board piece e = true) :
    ((piece.kind = .rook ∨ piece.kind = .bishop ∨ piece.kind = .queen) →
      is_path_blocked g.board s e = false) ∧
    move_piece g.board s e ≠ none ∧
    (make_move g s e).1 ≠ .rejected := by
  have hpos : piece.pos = s := get_square_wf_pos hwf hs hcell
  have hval' := hval
  unfold board_is_valid_move at hval'
  rw [Bool.and_eq_true] at hval'
  obtain ⟨hgeom, -⟩ := hval'
  obtain ⟨h1, h2⟩ := make_move_accepts g s e piece hwf hs hcell hcol hval
  exact ⟨fun hk => slider_not_blocked g.board piece s e hpos hk hgeom, h1, h2⟩

/-- Witness for C10: the mating rook move of the C8 scenario — a slider with
a positive first verdict; the re-checks agree and the move is applied. -/
theorem claim_C10_witness :
    is_path_blocked c8Game.board (0, 0) (7, 0) = false ∧
    move_piece c8Game.board (0, 0) (7, 0) ≠ none ∧
    (make_move c8Game (0, 0) (7, 0)).1 ≠ .rejected :=
  have h := claim_C10 c8Game (0, 0) (7, 0) ⟨.rook, .white, (0, 0), true⟩
    (by decide) (by decide) (by decide) (by decide) (by decide)
  ⟨h.1 (Or.inl rfl), h.2.1, h.2.2⟩

/-! Claim C1: the simulate-then-restore sequence of Board.is_valid_move
leaves the board exactly as it was. -/

/-- Replacing a piece's recorded square by the square it already records is
the identity. -/
theorem piece_pos_update (p : ChessPiece) (x : Int × Int) (h : p.pos = x) :
    { p with pos := x } = p := by
  cases p
  simp only [ChessPiece.mk.injEq, and_true, true_and]
  simp only [] at h
  rw [h]

/-- A walk between squares at Chebyshev distance at most one crosses no
intermediate square. -/
theorem is_path_clear_adjacent (b : ChessBoard) (s e : Int × Int)
    (h1 : (e.1 - s.1).natAbs ≤ 1) (h2 : (e.2 - s.2).natAbs ≤ 1) :
    is_path_clear b s e = true := by
  unfold is_path_clear
  simp only []
  rw [sgn_of_small _ h1, sgn_of_small _ h2]
  have hc : (s.1 + (e.1 - s.1), s.2 + (e.2 - s.2)) = e := by
    rw [Prod.ext_iff]
    constructor
    · show s.1 + (e.1 - s.1) = e.1
      omega
    · show s.2 + (e.2 - s.2) = e.2
      omega
  rw [hc, occupiedOnWalk_target]
  rfl

/-- The component facts of a successful kingside-castling geometry check. -/
theorem kingside_parts (b : ChessBoard) (p : ChessPiece) (row col : Int)
    (h : king_castle_kingside b p row col = true) :
    (∃ rk, get_square b (row, 7) = some rk ∧ rk.kind = .rook ∧
      rk.hasMoved = false) ∧
    get_square b (row, col + 1) = none ∧
    is_square_under_attack b (row, col + 1) p.color = false ∧
    is_square_under_attack b (row, col + 2) p.color = false := by
  unfold king_castle_kingside at h
  simp only [Bool.and_eq_true, Bool.not_eq_true',
    Option.isNone_iff_eq_none] at h
  obtain ⟨⟨⟨hrk, hemp⟩, ha1⟩, ha2⟩ := h
  exact ⟨(rook_cell_iff b (row, 7)).1 hrk, hemp, ha1, ha2⟩

/-- The component facts of a successful queenside-castling geometry check. -/
theorem queenside_parts (b : ChessBoard) (p : ChessPiece) (row col : Int)
    (h : king_castle_queenside b p row col = true) :
    (∃ rk, get_square b (row, 0) = some rk ∧ rk.kind = .rook ∧
      rk.hasMoved = false) ∧
    get_square b (row, col - 1) = none ∧
    get_square b (row, col - 2) = none ∧
    get_square b (row, col - 3) = none ∧
    is_square_under_attack b (row, col - 1) p.color = false ∧
    is_square_under_attack b (row, col - 2) p.color = false := by
  unfold king_castle_queenside at h
  simp only [Bool.and_eq_true, Bool.not_eq_true',
    Option.isNone_iff_eq_none] at h
  obtain ⟨⟨⟨⟨⟨hrk, h1⟩, h2⟩, h3⟩, ha1⟩, ha2⟩ := h
  exact ⟨(rook_cell_iff b (row, 0)).1 hrk, h1, h2, h3, ha1, ha2⟩

/-- The facts a successful king geometry check certifies for a two-column
move: same row, king unmoved, destination not same-colour, king's square not
attacked, and the side-specific castling conditions. -/
theorem king_castle_facts (b : ChessBoard) (p : ChessPiece) (np : Int × Int)
    (hgeo : piece_is_valid_move b p np = true) (hk : p.kind = .king)
    (habs : (np.2 - p.pos.2).natAbs = 2) :
    np.1 = p.pos.1 ∧ p.hasMoved = false ∧
    (∀ t, get_square b np = some t → t.color ≠ p.color) ∧
    is_square_under_attack b p.pos p.color = false ∧
    (if p.pos.2 < np.2 then king_castle_kingside b p p.pos.1 p.pos.2 = true
     else king_castle_queenside b p p.pos.1 p.pos.2 = true) := by
  simp only [piece_is_valid_move, hk, king_valid] at hgeo
  rw [if_neg (show ¬ ((np.1 - p.pos.1).natAbs ≤ 1 ∧
      (np.2 - p.pos.2).natAbs ≤ 1) by omega)] at hgeo
  by_cases htop : ((match get_square b np with
      | some target => decide (target.color = p.color)
      | none => false) = true)
  · rw [if_pos htop] at hgeo; cases hgeo
  · rw [if_neg htop] at hgeo
    rw [top_check_iff] at htop
    by_cases hcond : np.1 = p.pos.1 ∧ (np.2 - p.pos.2).natAbs = 2 ∧
        p.hasMoved = false
    · rw [if_pos hcond] at hgeo
      cases hatk : is_square_under_attack b p.pos p.color with
      | true => rw [hatk] at hgeo; simp at hgeo
      | false =>
        rw [hatk] at hgeo
        simp only [Bool.false_eq_true, if_false] at hgeo
        refine ⟨hcond.1, hcond.2.2, htop, rfl, ?_⟩
        by_cases hside : p.pos.2 < np.2
        · rw [if_pos hside] at hgeo
          rw [if_pos hside]
          exact hgeo
        · rw [if_neg hside] at hgeo
          rw [if_neg hside]
          exact hgeo
    · rw [if_neg hcond] at hgeo; cases hgeo

/-- Packaging of the in-board bounds for a literal pair. -/
theorem inB_mk (x y : Int) (h1 : 0 ≤ x) (h2 : x < 8) (h3 : 0 ≤ y)
    (h4 : y < 8) : inB (x, y) :=
  ⟨h1, h2, h3, h4⟩

/-- Restoring a twice-updated piece's recorded square to the square it
originally recorded is the identity. -/
theorem piece_double_update (rk : ChessPiece) (a x : Int × Int)
    (h : rk.pos = x) :
    ({ { rk with pos := a } with pos := x } : ChessPiece) = rk := by
  cases rk with
  | mk k c pos m =>
    simp only [] at h
    subst h
    rfl

/-- Non-castling moves record no castling locals. -/
theorem castle_info_none (b : ChessBoard) (p : ChessPiece) (np : Int × Int)
    (h : ¬ (p.kind = .king ∧ (np.2 - p.pos.2).natAbs = 2)) :
    castle_info b p np = none := by
  unfold castle_info
  rw [if_neg h]

/-- Rebuilding a piece field-by-field with its own recorded square is the
identity. -/
theorem piece_eta_pos (rk : ChessPiece) (x : Int × Int) (h : rk.pos = x) :
    (⟨rk.kind, rk.color, x, rk.hasMoved⟩ : ChessPiece) = rk := by
  cases rk with
  | mk k c pos m =>
    simp only [] at h
    rw [← h]

/-- Board.is_valid_move restores the board exactly on every path: geometric
rejection (no mutation at all), normal moves, castling simulations with the
rook, and boards with no king of the moving colour (claim C1's content,
shared as a lemma). -/
theorem run_restores (b : ChessBoard) (p : ChessPiece) (np : Int × Int)
    (hwf : board_wf b) (hcell : get_square b p.pos = some p) (hnp : inB np) :
    (board_is_valid_move_run b p np).2 = b := by
  unfold board_is_valid_move_run
  cases hgeo : piece_is_valid_move b p np with
  | false => rfl
  | true =>
    show run_restore b p np = b
    have ho : inB p.pos := get_square_self_inB hwf hcell
    obtain ⟨ho1, ho2, ho3, ho4⟩ := ho
    have ho : inB p.pos := ⟨ho1, ho2, ho3, ho4⟩
    obtain ⟨hn1, hn2, hn3, hn4⟩ := hnp
    have hnp : inB np := ⟨hn1, hn2, hn3, hn4⟩
    unfold run_restore
    simp only []
    rw [hcell, if_pos rfl, if_pos rfl]
    by_cases hcast : p.kind = .king ∧ (np.2 - p.pos.2).natAbs = 2
    · -- castling simulation branch
      obtain ⟨hk, habs⟩ := hcast
      obtain ⟨hrow, hmoved, htop, hatk0, hsides⟩ :=
        king_castle_facts b p np hgeo hk habs
      by_cases hside : p.pos.2 < np.2
      · -- kingside
        rw [if_pos hside] at hsides
        obtain ⟨⟨rk, hrk, hrkk, hrkm⟩, hemp, ha1, ha2⟩ :=
          kingside_parts b p p.pos.1 p.pos.2 hsides
        have hnp2 : np.2 = p.pos.2 + 2 := by omega
        have ho7 : inB (p.pos.1, (7 : Int)) :=
          inB_mk _ _ ho1 ho2 (by omega) (by omega)
        have hrkpos : rk.pos = (p.pos.1, (7 : Int)) :=
          get_square_wf_pos hwf ho7 hrk
        -- the destination cannot be the rook's corner: an enemy rook there
        -- would make the crossed square attacked, a same-colour piece there
        -- is stopped by the leading colour test
        have hne7 : np.2 ≠ 7 := by
          intro h7
          have hnpr : np = (p.pos.1, (7 : Int)) := by
            rw [Prod.ext_iff]; exact ⟨hrow, h7⟩
          have hgetnp : get_square b np = some rk := by rw [hnpr]; exact hrk
          have hcolrk := htop rk hgetnp
          have hattack : is_square_under_attack b (p.pos.1, p.pos.2 + 1)
              p.color = true := by
            rw [is_square_under_attack_iff b _ _ hwf]
            obtain ⟨oi, oj, hoeq⟩ := inB_fin ho
            have h7f : (((7 : Fin 8) : Int)) = (7 : Int) := rfl
            have hpair : (((oi : Int)), (((7 : Fin 8)) : Int)) =
                (p.pos.1, (7 : Int)) := by
              rw [Prod.ext_iff]
              constructor
              · show ((oi : Int)) = p.pos.1
                exact (congrArg Prod.fst hoeq).symm
              · exact h7f
            refine ⟨oi, (7 : Fin 8), rk, ?_, hcolrk, ?_, ?_⟩
            · rw [← get_square_eq_cell b oi (7 : Fin 8) hpair]
              exact hrk
            · intro hq
              have hq2 : ((7 : Fin 8) : Int) = p.pos.2 + 1 :=
                congrArg Prod.snd hq
              rw [h7f] at hq2
              omega
            · simp only [spec_covers, hrkk]
              refine ⟨Or.inl ?_, ?_⟩
              · rw [hrkpos]
              · rw [hrkpos]
                apply is_path_clear_adjacent
                · show ((p.pos.1, p.pos.2 + 1).1 - (p.pos.1, (7:Int)).1).natAbs ≤ 1
                  simp only [Prod.fst]
                  omega
                · show ((p.pos.1, p.pos.2 + 1).2 - (p.pos.1, (7:Int)).2).natAbs ≤ 1
                  simp only [Prod.snd]
                  omega
          rw [hattack] at ha1
          cases ha1
        have hb1read : get_square (sim_piece_moved b p np)
            (p.pos.1, (7 : Int)) = some rk := by
          unfold sim_piece_moved
          obtain ⟨ri, rj, hreq⟩ := inB_fin ho7
          rw [get_square_eq_cell _ ri rj hreq.symm]
          rw [setCell_apply_inB hnp, setCell_apply_inB ho]
          rw [if_neg (by
            rw [← hreq]
            intro heq
            have h2 := congrArg Prod.snd heq
            simp only [] at h2
            omega)]
          rw [if_neg (by
            rw [← hreq]
            intro heq
            have h2 := congrArg Prod.snd heq
            simp only [] at h2
            omega)]
          rw [← get_square_eq_cell b ri rj hreq.symm]
          exact hrk
        have hcastinfo : castle_info b p np =
            some ((p.pos.1, (7 : Int)), (p.pos.1, np.2 - 1), rk, true) := by
          unfold castle_info
          rw [if_pos ⟨hk, habs⟩]
          simp only [if_pos hside]
          rw [hb1read]
          simp only []
          rw [decide_eq_true (show rk.kind = .rook ∧ rk.hasMoved = false
            from ⟨hrkk, hrkm⟩)]
        unfold sim_board
        rw [hcastinfo]
        simp only [eq_self_iff_true, if_true]
        have hrnew : inB (p.pos.1, np.2 - 1) :=
          inB_mk _ _ ho1 ho2 (by omega) (by omega)
        funext i j
        simp only [sim_piece_moved, setCell_apply_inB ho,
          setCell_apply_inB hnp, setCell_apply_inB ho7,
          setCell_apply_inB hrnew]
        by_cases hA : ((i : Int), (j : Int)) = (p.pos.1, (7 : Int))
        · rw [if_pos hA]
          rw [piece_eta_pos rk _ hrkpos]
          obtain ⟨ri, rj, hreq⟩ := inB_fin ho7
          have hij : i = ri ∧ j = rj := by
            constructor
            · exact fin_eq_iff_int.2 (by
                have := congrArg Prod.fst hA
                have h2 := congrArg Prod.fst hreq
                simp only [] at this h2
                omega)
            · exact fin_eq_iff_int.2 (by
                have := congrArg Prod.snd hA
                have h2 := congrArg Prod.snd hreq
                simp only [] at this h2
                omega)
          rw [hij.1, hij.2, ← get_square_eq_cell b ri rj hreq.symm]
          exact hrk.symm
        · rw [if_neg hA]
          by_cases hB : ((i : Int), (j : Int)) = (p.pos.1, np.2 - 1)
          · rw [if_pos hB]
            obtain ⟨ri, rj, hreq⟩ := inB_fin hrnew
            have hij : i = ri ∧ j = rj := by
              constructor
              · exact fin_eq_iff_int.2 (by
                  have := congrArg Prod.fst hB
                  have h2 := congrArg Prod.fst hreq
                  simp only [] at this h2
                  omega)
              · exact fin_eq_iff_int.2 (by
                  have := congrArg Prod.snd hB
                  have h2 := congrArg Prod.snd hreq
                  simp only [] at this h2
                  omega)
            rw [hij.1, hij.2, ← get_square_eq_cell b ri rj hreq.symm]
            have hrnew_eq : ((p.pos.1, np.2 - 1) : Int × Int) =
                (p.pos.1, p.pos.2 + 1) := by
              rw [Prod.ext_iff]
              exact ⟨rfl, by omega⟩
            rw [hrnew_eq]
            exact hemp.symm
          · rw [if_neg hB]
            by_cases hC : ((i : Int), (j : Int)) = p.pos
            · rw [if_neg hA, if_pos hC]
              obtain ⟨oi, oj, hoeq⟩ := inB_fin ho
              have hij : i = oi ∧ j = oj := by
                constructor
                · exact fin_eq_iff_int.2 (by
                    have := congrArg Prod.fst hC
                    have h2 := congrArg Prod.fst hoeq
                    simp only [] at this h2
                    omega)
                · exact fin_eq_iff_int.2 (by
                    have := congrArg Prod.snd hC
                    have h2 := congrArg Prod.snd hoeq
                    simp only [] at this h2
                    omega)
              rw [hij.1, hij.2, ← get_square_eq_cell b oi oj hoeq.symm]
              exact hcell.symm
            · rw [if_neg hC]
              by_cases hD : ((i : Int), (j : Int)) = np
              · rw [if_neg hA, if_pos hD]
                obtain ⟨ni, nj, hneq⟩ := inB_fin hnp
                have hij : i = ni ∧ j = nj := by
                  constructor
                  · exact fin_eq_iff_int.2 (by
                      have := congrArg Prod.fst hD
                      have h2 := congrArg Prod.fst hneq
                      simp only [] at this h2
                      omega)
                  · exact fin_eq_iff_int.2 (by
                      have := congrArg Prod.snd hD
                      have h2 := congrArg Prod.snd hneq
                      simp only [] at this h2
                      omega)
                rw [hij.1, hij.2, ← get_square_eq_cell b ni nj hneq.symm]
              · rw [if_neg hA, if_neg hD, if_neg hC, if_neg hB, if_neg hA,
                  if_neg hD, if_neg hC]
      · -- queenside
        rw [if_neg hside] at hsides
        obtain ⟨⟨rk, hrk, hrkk, hrkm⟩, he1, he2, he3, ha1, ha2⟩ :=
          queenside_parts b p p.pos.1 p.pos.2 hsides
        have hnp2 : np.2 = p.pos.2 - 2 := by omega
        have ho0 : inB (p.pos.1, (0 : Int)) :=
          inB_mk _ _ ho1 ho2 (by omega) (by omega)
        have hrkpos : rk.pos = (p.pos.1, (0 : Int)) :=
          get_square_wf_pos hwf ho0 hrk
        -- the destination cannot be the rook's corner: the square
        -- (row, col-2) is required to be empty but holds the rook
        have hne0 : np.2 ≠ 0 := by
          intro h0
          have : (p.pos.1, p.pos.2 - 2) = (p.pos.1, (0 : Int)) := by
            rw [Prod.ext_iff]
            exact ⟨rfl, by omega⟩
          rw [this, hrk] at he2
          cases he2
        have hb1read : get_square (sim_piece_moved b p np)
            (p.pos.1, (0 : Int)) = some rk := by
          unfold sim_piece_moved
          obtain ⟨ri, rj, hreq⟩ := inB_fin ho0
          rw [get_square_eq_cell _ ri rj hreq.symm]
          rw [setCell_apply_inB hnp, setCell_apply_inB ho]
          rw [if_neg (by
            rw [← hreq]
            intro heq
            have h2 := congrArg Prod.snd heq
            simp only [] at h2
            omega)]
          rw [if_neg (by
            rw [← hreq]
            intro heq
            have h2 := congrArg Prod.snd heq
            simp only [] at h2
            omega)]
          rw [← get_square_eq_cell b ri rj hreq.symm]
          exact hrk
        have hcastinfo : castle_info b p np =
            some ((p.pos.1, (0 : Int)), (p.pos.1, np.2 + 1), rk, true) := by
          unfold castle_info
          rw [if_pos ⟨hk, habs⟩]
          simp only [if_neg hside]
          rw [hb1read]
          simp only []
          rw [decide_eq_true (show rk.kind = .rook ∧ rk.hasMoved = false
            from ⟨hrkk, hrkm⟩)]
        unfold sim_board
        rw [hcastinfo]
        simp only [eq_self_iff_true, if_true]
        have hrnew : inB (p.pos.1, np.2 + 1) :=
          inB_mk _ _ ho1 ho2 (by omega) (by omega)
        funext i j
        simp only [sim_piece_moved, setCell_apply_inB ho,
          setCell_apply_inB hnp, setCell_apply_inB ho0,
          setCell_apply_inB hrnew]
        by_cases hA : ((i : Int), (j : Int)) = (p.pos.1, (0 : Int))
        · rw [if_pos hA]
          rw [piece_eta_pos rk _ hrkpos]
          obtain ⟨ri, rj, hreq⟩ := inB_fin ho0
          have hij : i = ri ∧ j = rj := by
            constructor
            · exact fin_eq_iff_int.2 (by
                have := congrArg Prod.fst hA
                have h2 := congrArg Prod.fst hreq
                simp only [] at this h2
                omega)
            · exact fin_eq_iff_int.2 (by
                have := congrArg Prod.snd hA
                have h2 := congrArg Prod.snd hreq
                simp only [] at this h2
                omega)
          rw [hij.1, hij.2, ← get_square_eq_cell b ri rj hreq.symm]
          exact hrk.symm
        · rw [if_neg hA]
          by_cases hB : ((i : Int), (j : Int)) = (p.pos.1, np.2 + 1)
          · rw [if_pos hB]
            obtain ⟨ri, rj, hreq⟩ := inB_fin hrnew
            have hij : i = ri ∧ j = rj := by
              constructor
              · exact fin_eq_iff_int.2 (by
                  have := congrArg Prod.fst hB
                  have h2 := congrArg Prod.fst hreq
                  simp only [] at this h2
                  omega)
              · exact fin_eq_iff_int.2 (by
                  have := congrArg Prod.snd hB
                  have h2 := congrArg Prod.snd hreq
                  simp only [] at this h2
                  omega)
            rw [hij.1, hij.2, ← get_square_eq_cell b ri rj hreq.symm]
            have hrnew_eq : ((p.pos.1, np.2 + 1) : Int × Int) =
                (p.pos.1, p.pos.2 - 1) := by
              rw [Prod.ext_iff]
              exact ⟨rfl, by omega⟩
            rw [hrnew_eq]
            exact he1.symm
          · rw [if_neg hB]
            by_cases hC : ((i : Int), (j : Int)) = p.pos
            · rw [if_neg hA, if_pos hC]
              obtain ⟨oi, oj, hoeq⟩ := inB_fin ho
              have hij : i = oi ∧ j = oj := by
                constructor
                · exact fin_eq_iff_int.2 (by
                    have := congrArg Prod.fst hC
                    have h2 := congrArg Prod.fst hoeq
                    simp only [] at this h2
                    omega)
                · exact fin_eq_iff_int.2 (by
                    have := congrArg Prod.snd hC
                    have h2 := congrArg Prod.snd hoeq
                    simp only [] at this h2
                    omega)
              rw [hij.1, hij.2, ← get_square_eq_cell b oi oj hoeq.symm]
              exact hcell.symm
            · rw [if_neg hC]
              by_cases hD : ((i : Int), (j : Int)) = np
              · rw [if_neg hA, if_pos hD]
                obtain ⟨ni, nj, hneq⟩ := inB_fin hnp
                have hij : i = ni ∧ j = nj := by
                  constructor
                  · exact fin_eq_iff_int.2 (by
                      have := congrArg Prod.fst hD
                      have h2 := congrArg Prod.fst hneq
                      simp only [] at this h2
                      omega)
                  · exact fin_eq_iff_int.2 (by
                      have := congrArg Prod.snd hD
                      have h2 := congrArg Prod.snd hneq
                      simp only [] at this h2
                      omega)
                rw [hij.1, hij.2, ← get_square_eq_cell b ni nj hneq.symm]
              · rw [if_neg hA, if_neg hD, if_neg hC, if_neg hB, if_neg hA,
                  if_neg hD, if_neg hC]
    · -- no castling simulation
      rw [castle_info_none b p np hcast]
      unfold sim_board
      rw [castle_info_none b p np hcast]
      funext i j
      simp only [sim_piece_moved, setCell_apply_inB ho, setCell_apply_inB hnp]
      by_cases hC : ((i : Int), (j : Int)) = p.pos
      · rw [if_pos hC]
        obtain ⟨oi, oj, hoeq⟩ := inB_fin ho
        have hij : i = oi ∧ j = oj := by
          constructor
          · exact fin_eq_iff_int.2 (by
              have := congrArg Prod.fst hC
              have h2 := congrArg Prod.fst hoeq
              simp only [] at this h2
              omega)
          · exact fin_eq_iff_int.2 (by
              have := congrArg Prod.snd hC
              have h2 := congrArg Prod.snd hoeq
              simp only [] at this h2
              omega)
        rw [hij.1, hij.2, ← get_square_eq_cell b oi oj hoeq.symm]
        exact hcell.symm
      · rw [if_neg hC]
        by_cases hD : ((i : Int), (j : Int)) = np
        · rw [if_pos hD]
          obtain ⟨ni, nj, hneq⟩ := inB_fin hnp
          have hij : i = ni ∧ j = nj := by
            constructor
            · exact fin_eq_iff_int.2 (by
                have := congrArg Prod.fst hD
                have h2 := congrArg Prod.fst hneq
                simp only [] at this h2
                omega)
            · exact fin_eq_iff_int.2 (by
                have := congrArg Prod.snd hD
                have h2 := congrArg Prod.snd hneq
                simp only [] at this h2
                omega)
          rw [hij.1, hij.2, ← get_square_eq_cell b ni nj hneq.symm]
        · rw [if_neg hD, if_neg hC, if_neg hD, if_neg hC]

/-- C1: for every call to the legality validator Board.is_valid_move, on any
well-formed board state, the occupancy grid, every piece's recorded square
and every has-moved flag are identical before and after the call, whatever
the boolean result — including calls taking the castling simulation branch
and calls on boards with no king of the mover's colour (the king search and
its defensive default never mutate).  Board equality covers occupancy,
positions and flags at once, because the pieces live in the grid. -/
theorem claim_C1 (b : ChessBoard) (p : ChessPiece) (np : Int × Int)
    (hwf : board_wf b) (hcell : get_square b p.pos = some p) (hnp : inB np) :
    (board_is_valid_move_run b p np).2 = b :=
  run_restores b p np hwf hcell hnp

/-- Witness for C1 at a castling-simulation call: the scenario board is
restored exactly by the validator run on the kingside castle. -/
theorem claim_C1_witness :
    (board_is_valid_move_run c3ScenarioBoard c3ScenarioKing (0, 6)).2 =
      c3ScenarioBoard :=
  claim_C1 c3ScenarioBoard c3ScenarioKing (0, 6) (by decide) (by decide)
    (by decide)

/-- C9: Game.make_move rejects exactly when no piece stands on the start
square, or the piece is not the side to move, or the legality verdict is
negative; every rejection returns the game unchanged (never an exception —
the embedding is a total function), and the validator call a rejection may
have made restores the board exactly. -/
theorem claim_C9 (g : Game) (s e : Int × Int) (hwf : board_wf g.board)
    (hs : inB s) (he : inB e) :
    ((make_move g s e).1 = .rejected ↔
      (get_square g.board s = none ∨
       ∃ p, get_square g.board s = some p ∧
         (p.color ≠ g.turn ∨ board_is_valid_move g.board p e = false))) ∧
    ((make_move g s e).1 = .rejected → (make_move g s e).2 = g) ∧
    (∀ p, get_square g.board s = some p →
      (board_is_valid_move_run g.board p e).2 = g.board) := by
  refine ⟨⟨?_, ?_⟩, ?_, ?_⟩
  · -- rejected → one of the three reasons
    intro hrej
    rcases hcell : get_square g.board s with _ | p
    · exact Or.inl rfl
    · refine Or.inr ⟨p, rfl, ?_⟩
      by_cases hcol : p.color = g.turn
      · refine Or.inr ?_
        cases hval : board_is_valid_move g.board p e with
        | false => rfl
        | true =>
          exact absurd hrej
            (make_move_accepts g s e p hwf hs hcell hcol hval).2
      · exact Or.inl hcol
  · -- each reason → rejected
    intro h
    rcases h with hnone | ⟨p, hcell, hrest⟩
    · unfold make_move
      rw [hnone]
    · unfold make_move
      rw [hcell]
      simp only []
      rcases hrest with hcol | hval
      · rw [if_pos hcol]
      · by_cases hcol : p.color ≠ g.turn
        · rw [if_pos hcol]
        · rw [if_neg hcol, hval]
          rfl
  · -- rejection leaves the game unchanged
    intro hrej
    exact (make_move_result_state g s e (make_move g s e).1
      (make_move g s e).2 rfl).2.2 hrej
  · -- the validator restores the board on every call make_move makes
    intro p hcell
    have hpos : p.pos = s := get_square_wf_pos hwf hs hcell
    exact run_restores g.board p e hwf (by rw [hpos]; exact hcell) he

/-- Witness for C9: moving from an empty square on the two-king board is
rejected. -/
theorem claim_C9_witness :
    (make_move c7Game (3, 3) (4, 4)).1 = .rejected :=
  (claim_C9 c7Game (3, 3) (4, 4) (by decide) (by decide) (by decide)).1.2
    (Or.inl (by decide))

/-! Claim C2: the mover's king is safe after every accepted move. -/

/-- A piece already standing on a square can never move to that square:
every geometry branch fails on the zero move (spec section 4.1's edge
case; needed to relate the two write orders of simulation and
application). -/
theorem no_self_move (b : ChessBoard) (p : ChessPiece)
    (hcell : get_square b p.pos = some p) :
    piece_is_valid_move b p p.pos = false := by
  cases hk : p.kind with
  | pawn =>
    cases hc : p.color <;>
      simp only [piece_is_valid_move, hk, pawn_valid, hc] <;>
      rw [decide_eq_false (by omega), decide_eq_false (by omega),
        decide_eq_false (by omega)] <;> rfl
  | rook =>
    simp only [piece_is_valid_move, hk, rook_valid]
    rw [if_neg (by intro hcon; exact hcon.1 rfl)]
    rw [is_path_clear_adjacent b p.pos p.pos (by omega) (by omega)]
    simp only [Bool.not_true, Bool.false_eq_true, if_false]
    rw [hcell]
    simp
  | knight =>
    simp only [piece_is_valid_move, hk, knight_valid]
    rw [if_neg (by
      intro hcon
      rcases hcon with hcon | hcon <;> (rw [Prod.mk.injEq] at hcon; omega))]
  | bishop =>
    simp only [piece_is_valid_move, hk, bishop_valid]
    rw [if_neg (by omega)]
    rw [is_path_clear_adjacent b p.pos p.pos (by omega) (by omega)]
    simp only [Bool.not_true, Bool.false_eq_true, if_false]
    rw [hcell]
    simp
  | queen =>
    simp only [piece_is_valid_move, hk, queen_valid]
    rw [if_pos (show True ∨ True ∨
      (p.pos.1 - p.pos.1).natAbs = (p.pos.2 - p.pos.2).natAbs from
      Or.inl trivial)]
    rw [is_path_clear_adjacent b p.pos p.pos (by omega) (by omega)]
    simp only [Bool.not_true, Bool.false_eq_true, if_false]
    rw [hcell]
    simp
  | king =>
    simp only [piece_is_valid_move, hk, king_valid]
    rw [hcell]
    simp

/-- The two write orders of application (destination first) and simulation
(origin first) produce the same board when origin and destination differ. -/
theorem write_orders_agree (b : ChessBoard) (p : ChessPiece) (s e : Int × Int)
    (hpos : p.pos = s) (hs : inB s) (he : inB e) (hne : e ≠ s) :
    setCell (setCell b e (some { p with pos := e })) s none =
      sim_piece_moved b p e := by
  unfold sim_piece_moved
  rw [hpos]
  funext i j
  rw [setCell_apply_inB hs, setCell_apply_inB he, setCell_apply_inB he,
    setCell_apply_inB hs]
  by_cases h1 : ((i : Int), (j : Int)) = s
  · rw [if_pos h1, if_neg (fun h2 => hne (h2.symm.trans h1)), if_pos h1]
  · rw [if_neg h1]
    by_cases h2 : ((i : Int), (j : Int)) = e
    · rw [if_pos h2, if_pos h2]
    · rw [if_neg h2, if_neg h2, if_neg h1]

/-- The has-moved flag is invisible to the projection. -/
theorem projC_mk_flag (k : PKind) (c : PColor) (ps : Int × Int) (x y : Bool) :
    projC (some ⟨k, c, ps, x⟩) = projC (some ⟨k, c, ps, y⟩) := rfl

/-- The board Board.move_piece produces agrees, cell by cell up to has-moved
flags, with the simulated board of Board.is_valid_move: application performs
the same relocations and additionally sets flags. -/
theorem move_piece_sim_proj (b : ChessBoard) (s e : Int × Int)
    (p : ChessPiece) (b2 : ChessBoard)
    (hwf : board_wf b) (hs : inB s) (he : inB e)
    (hcell : get_square b s = some p)
    (hmp : move_piece b s e = some b2) :
    ∀ i j, projC (b2 i j) = projC (sim_board b p e i j) := by
  have hpos : p.pos = s := get_square_wf_pos hwf hs hcell
  unfold move_piece at hmp
  rw [hcell] at hmp
  simp only [] at hmp
  cases hval : board_is_valid_move b p e with
  | false =>
    rw [hval] at hmp
    simp at hmp
  | true =>
    rw [hval] at hmp
    rw [if_pos rfl] at hmp
    have hgeom : piece_is_valid_move b p e = true := by
      have hval' := hval
      unfold board_is_valid_move at hval'
      rw [Bool.and_eq_true] at hval'
      exact hval'.1
    have hne : e ≠ s := by
      intro hcon
      have hc2 : get_square b p.pos = some p := by rw [hpos]; exact hcell
      rw [hcon, ← hpos, no_self_move b p hc2] at hgeom
      cases hgeom
    injection hmp with hb2
    subst hb2
    rw [write_orders_agree b p s e hpos hs he hne]
    unfold sim_board castle_info
    rw [hpos]
    intro i j
    by_cases hcast : p.kind = PKind.king ∧ (e.2 - s.2).natAbs = 2
    · rw [if_pos hcast, if_pos hcast]
      rcases hrkread : get_square (sim_piece_moved b p e)
          (s.1, if s.2 < e.2 then 7 else 0) with _ | rk
      · simp only []
        -- no rook: both sides keep the piece-moved board; the flag write is
        -- invisible to the projection
        have hkk : p.kind = PKind.rook ∨ p.kind = PKind.king :=
          Or.inr hcast.1
        rw [if_pos hkk]
        rw [setCell_apply_inB he]
        by_cases hije : ((i : Int), (j : Int)) = e
        · rw [if_pos hije]
          unfold sim_piece_moved
          rw [hpos, setCell_apply_inB he, if_pos hije]
          exact projC_mk_flag _ _ _ _ _
        · rw [if_neg hije]
      · simp only []
        by_cases hrkok : rk.kind = PKind.rook ∧ rk.hasMoved = false
        · rw [if_pos hrkok, decide_eq_true hrkok]
          simp only [if_true]
          have hkk : p.kind = PKind.rook ∨ p.kind = PKind.king :=
            Or.inr hcast.1
          rw [if_pos hkk]
          have hrc : inB (s.1, if s.2 < e.2 then (7 : Int) else 0) := by
            obtain ⟨a1, a2, a3, a4⟩ := hs
            by_cases hside : s.2 < e.2
            · rw [if_pos hside]; exact inB_mk _ _ a1 a2 (by omega) (by omega)
            · rw [if_neg hside]; exact inB_mk _ _ a1 a2 (by omega) (by omega)
          have hnrc : inB (s.1, if s.2 < e.2 then e.2 - 1 else e.2 + 1) := by
            obtain ⟨a1, a2, a3, a4⟩ := hs
            obtain ⟨c1, c2, c3, c4⟩ := he
            obtain ⟨hkn, habs⟩ := hcast
            by_cases hside : s.2 < e.2
            · rw [if_pos hside]; exact inB_mk _ _ a1 a2 (by omega) (by omega)
            · rw [if_neg hside]; exact inB_mk _ _ a1 a2 (by omega) (by omega)
          rw [setCell_apply_inB he, setCell_apply_inB hnrc,
            setCell_apply_inB hrc, setCell_apply_inB hnrc,
            setCell_apply_inB hrc]
          by_cases hije : ((i : Int), (j : Int)) = e
          · rw [if_pos hije]
            -- the destination is distinct from the rook's target square
            have hnotnrc : ¬ ((i : Int), (j : Int)) =
                (s.1, if s.2 < e.2 then e.2 - 1 else e.2 + 1) := by
              rw [hije]
              intro hcon
              have h2 := congrArg Prod.snd hcon
              simp only [] at h2
              by_cases hside : s.2 < e.2 <;> simp only [if_pos, if_neg, hside] at h2 <;> omega
            rw [if_neg hnotnrc]
            by_cases hijrc : ((i : Int), (j : Int)) =
                (s.1, if s.2 < e.2 then (7 : Int) else 0)
            · -- the destination square is the rook's corner: then the rook
              -- read found the moved king, contradicting its rook kind
              exfalso
              have : get_square (sim_piece_moved b p e)
                  (s.1, if s.2 < e.2 then (7 : Int) else 0) =
                  some { p with pos := e } := by
                obtain ⟨ri, rj, hreq⟩ := inB_fin hrc
                rw [get_square_eq_cell _ ri rj hreq.symm]
                unfold sim_piece_moved
                rw [hpos, setCell_apply_inB he, setCell_apply_inB hs]
                rw [if_pos (hreq.symm.trans (hijrc.symm.trans hije))]
              rw [this] at hrkread
              injection hrkread with hrkeq
              have : rk.kind = p.kind := by rw [← hrkeq]
              rw [hcast.1] at this
              rw [this] at hrkok
              cases hrkok.1
            · rw [if_neg hijrc]
              unfold sim_piece_moved
              rw [hpos, setCell_apply_inB he, if_pos hije]
              exact projC_mk_flag _ _ _ _ _
          · rw [if_neg hije]
            by_cases hijn : ((i : Int), (j : Int)) =
                (s.1, if s.2 < e.2 then e.2 - 1 else e.2 + 1)
            · rw [if_pos hijn, if_pos hijn]
              exact projC_mk_flag _ _ _ _ _
            · rw [if_neg hijn, if_neg hijn]
        · rw [if_neg hrkok, decide_eq_false hrkok]
          simp only [Bool.false_eq_true, if_false]
          have hkk : p.kind = PKind.rook ∨ p.kind = PKind.king :=
            Or.inr hcast.1
          rw [if_pos hkk]
          rw [setCell_apply_inB he]
          by_cases hije : ((i : Int), (j : Int)) = e
          · rw [if_pos hije]
            unfold sim_piece_moved
            rw [hpos, setCell_apply_inB he, if_pos hije]
            exact projC_mk_flag _ _ _ _ _
          · rw [if_neg hije]
    · rw [if_neg hcast, if_neg hcast]
      by_cases hkk : p.kind = PKind.rook ∨ p.kind = PKind.king
      · rw [if_pos hkk]
        rw [setCell_apply_inB he]
        by_cases hije : ((i : Int), (j : Int)) = e
        · rw [if_pos hije]
          unfold sim_piece_moved
          rw [hpos]
          simp only []
          rw [setCell_apply_inB he, if_pos hije]
          exact projC_mk_flag _ _ _ _ _
        · rw [if_neg hije]
      · rw [if_neg hkk]

/-- An accepted call to Game.make_move certifies a piece of the side to move
at the start square, a positive verdict of the legality validator, and a
successful application by Board.move_piece; the returned game carries the
applied board and the switched turn. -/
theorem make_move_accepted_parts (g : Game) (s e : Int × Int)
    (res : MoveResult) (g2 : Game) (h : make_move g s e = (res, g2))
    (hres : res ≠ .rejected) :
    ∃ (p : ChessPiece) (b2 : ChessBoard),
      get_square g.board s = some p ∧ p.color = g.turn ∧
      board_is_valid_move g.board p e = true ∧
      move_piece g.board s e = some b2 ∧
      g2.board = b2 ∧ g2.turn = g.turn.other := by
  unfold make_move at h
  rcases hcell : get_square g.board s with _ | piece
  · rw [hcell] at h
    cases h
    exact absurd rfl hres
  · rw [hcell] at h
    simp only [] at h
    by_cases hcol : piece.color ≠ g.turn
    · rw [if_pos hcol] at h
      cases h
      exact absurd rfl hres
    · rw [if_neg hcol] at h
      cases hval : board_is_valid_move g.board piece e with
      | false =>
        rw [hval] at h
        simp only [Bool.not_false, if_pos rfl] at h
        cases h
        exact absurd rfl hres
      | true =>
        rw [hval] at h
        simp only [Bool.not_true, Bool.false_eq_true, if_false] at h
        cases hpb : (decide (piece.kind = PKind.rook ∨
            piece.kind = PKind.bishop ∨ piece.kind = PKind.queen) &&
            is_path_blocked g.board s e) with
        | true =>
          rw [hpb] at h
          simp only [if_pos rfl] at h
          cases h
          exact absurd rfl hres
        | false =>
          rw [hpb] at h
          simp only [Bool.false_eq_true, if_false] at h
          rcases hmp : move_piece g.board s e with _ | b2
          · rw [hmp] at h
            cases h
            exact absurd rfl hres
          · rw [hmp] at h
            simp only [] at h
            cases hcm : is_checkmate b2 g.turn.other with
            | true =>
              rw [hcm] at h
              simp only [if_pos rfl] at h
              cases h
              exact ⟨piece, b2, rfl, not_not.mp hcol, hval, rfl, rfl, rfl⟩
            | false =>
              rw [hcm] at h
              simp only [Bool.false_eq_true, if_false] at h
              cases hsm : is_stalemate b2 g.turn.other with
              | true =>
                rw [hsm] at h
                simp only [if_pos rfl] at h
                cases h
                exact ⟨piece, b2, rfl, not_not.mp hcol, hval, rfl, rfl, rfl⟩
              | false =>
                rw [hsm] at h
                simp only [Bool.false_eq_true, if_false] at h
                cases h
                exact ⟨piece, b2, rfl, not_not.mp hcol, hval, rfl, rfl, rfl⟩

/-- C2: no self-check.  For every in-board move accepted (not rejected) by
Game.make_move on a well-formed board, the mover's king — located on the
post-move board by the 64-square scan — stands on a square that
is_square_under_attack reports as not attacked for the mover's color. -/
theorem claim_C2 (g : Game) (s e : Int × Int) (res : MoveResult) (g2 : Game)
    (hwf : board_wf g.board) (hs : inB s) (he : inB e)
    (h : make_move g s e = (res, g2)) (hres : res ≠ .rejected)
    (kp : Int × Int) (hkp : find_king g2.board g.turn = some kp) :
    is_square_under_attack g2.board kp g.turn = false := by
  obtain ⟨p, b2, hcell, hcol, hval, hmp, hb, ht⟩ :=
    make_move_accepted_parts g s e res g2 h hres
  have hproj : ∀ i j, projC (b2 i j) = projC (sim_board g.board p e i j) :=
    move_piece_sim_proj g.board s e p b2 hwf hs he hcell hmp
  have hfk : find_king (sim_board g.board p e) p.color = some kp := by
    rw [← find_king_congr hproj, hcol, ← hb]
    exact hkp
  have hval' := hval
  unfold board_is_valid_move at hval'
  rw [Bool.and_eq_true] at hval'
  have hsafe := hval'.2
  rw [hfk] at hsafe
  simp only [Bool.not_eq_true'] at hsafe
  rw [← hcol, hb]
  rw [is_square_under_attack_congr hproj]
  exact hsafe

/-- Witness for C2: in the two-kings position the accepted white king move
(0,0)→(0,1) leaves the white king on (0,1), unattacked. -/
theorem claim_C2_witness :
    is_square_under_attack (make_move c7Game ((0 : Int), (0 : Int))
      ((0 : Int), (1 : Int))).2.board ((0 : Int), (1 : Int)) PColor.white
      = false :=
  claim_C2 c7Game ((0 : Int), (0 : Int)) ((0 : Int), (1 : Int))
    (make_move c7Game ((0 : Int), (0 : Int)) ((0 : Int), (1 : Int))).1
    (make_move c7Game ((0 : Int), (0 : Int)) ((0 : Int), (1 : Int))).2
    (by decide) (by decide) (by decide) rfl (by decide)
    ((0 : Int), (1 : Int)) (by decide)

end Chess
